import Mathlib

/-!
Verification of the spatial-binning-and-color-blending pipeline of
`scripts/tree_census_h3_generator.py`.

The Python source is shallowly embedded below.  Strings are modelled as
`List Char`; pandas missing values (`NaN`) as `Option`; a Python function
that can raise an uncaught exception is modelled with an `Option` result
where `none` is the raised exception.
-/

namespace TreeCensus

/-- The twelve month labels, source list `MONTHS`. -/
def MONTHS : List String :=
  ["Jan", "Feb", "Mar", "Apr", "May", "Jun",
   "Jul", "Aug", "Sep", "Oct", "Nov", "Dec"]

/-- Python `s.split(sep)` for a single-character separator `sep`:
`""` splits to `[""]`, and adjacent separators produce empty parts. -/
def splitOnChar (sep : Char) : List Char → List (List Char)
  | [] => [[]]
  | c :: cs =>
    let rest := splitOnChar sep cs
    if c = sep then [] :: rest
    else
      match rest with
      | [] => [[c]]
      | p :: ps => (c :: p) :: ps

/-- The whitespace characters stripped by Python `int(str)`. -/
def isPySpace (c : Char) : Bool :=
  c = ' ' || c = '\t' || c = '\n' || c = '\x0d' || c = '\x0b' || c = '\x0c'

/-- Strip leading and trailing whitespace, as Python `int(str)` does. -/
def stripPySpace (s : List Char) : List Char :=
  ((s.dropWhile isPySpace).reverse.dropWhile isPySpace).reverse

/-- Decimal digit value of a character, `none` for a non-digit. -/
def decDigit (c : Char) : Option Nat :=
  if '0' ≤ c ∧ c ≤ '9' then some (c.toNat - '0'.toNat) else none

/-- Value of a decimal digit string, accumulator form. -/
def decDigitsAux : List Char → Nat → Option Nat
  | [], acc => some acc
  | c :: cs, acc =>
    match decDigit c with
    | some d => decDigitsAux cs (acc * 10 + d)
    | none => none

/-- Value of a non-empty decimal digit string, `none` otherwise. -/
def decDigits (s : List Char) : Option Nat :=
  if s = [] then none else decDigitsAux s 0

/-- Python `int(str)`: strip whitespace, optional sign, decimal digits;
`none` models the `ValueError` raised on anything else.  (Python
additionally accepts underscore digit grouping and non-ASCII decimal
digits; those are not modelled.) -/
def pyParseInt (s : List Char) : Option Int :=
  match stripPySpace s with
  | [] => none
  | c :: ds =>
    if c = '+' then (decDigits ds).map Int.ofNat
    else if c = '-' then (decDigits ds).map (fun n => -(n : Int))
    else (decDigits (c :: ds)).map Int.ofNat

/-- Source line `start_month, end_month = map(int, r.split("-"))`:
`none` models the `ValueError` raised when the split does not produce
exactly two parts or a part is not an integer literal. -/
def parseSegment (r : List Char) : Option (Int × Int) :=
  match splitOnChar '-' r with
  | [a, b] =>
    match pyParseInt a, pyParseInt b with
    | some x, some y => some (x, y)
    | _, _ => none
  | _ => none

/-- Python `range(lo, hi)` over integers. -/
def pyRange (lo hi : Int) : List Int :=
  (List.range (hi - lo).toNat).map (fun k => lo + Int.ofNat k)

/-- Python list indexing `MONTHS[i]` for the 12-element month list:
indices `0..11` are themselves, `-12..-1` wrap from the end (negative
indexing), anything else raises `IndexError`, modelled as `none`. -/
def pyMonthIndex (i : Int) : Option Nat :=
  if 0 ≤ i ∧ i < 12 then some i.toNat
  else if -12 ≤ i ∧ i < 0 then some (i + 12).toNat
  else none

/-- The calendar built by `convert_text_range_to_months`, modelled as the
list of the 12 boolean values of the Python dict `flowering_months` in
its fixed key order `MONTHS`. -/
def initialCalendar : List Bool := List.replicate 12 false

/-- The inner loop `for i in range(start_month - 1, end_month - 1 + 1):
flowering_months[MONTHS[i]] = True`, over an explicit index list. -/
def markMonths : List Int → List Bool → Option (List Bool)
  | [], cal => some cal
  | i :: is, cal =>
    match pyMonthIndex i with
    | none => none
    | some j => markMonths is (cal.set j true)

/-- The outer loop of `convert_text_range_to_months` over the `";"`-split
segments. -/
def convertSegments : List (List Char) → List Bool → Option (List Bool)
  | [], cal => some cal
  | r :: rs, cal =>
    match parseSegment r with
    | none => none
    | some se =>
      match markMonths (pyRange (se.1 - 1) (se.2 - 1 + 1)) cal with
      | none => none
      | some cal2 => convertSegments rs cal2

/-- `convert_text_range_to_months`: `none` models an uncaught exception
(`ValueError` from parsing or `IndexError` from month indexing). -/
def convert_text_range_to_months (t : List Char) : Option (List Bool) :=
  convertSegments (splitOnChar ';' t) initialCalendar

/-!  ## The prominence-weighted color blender  -/

/-- The source dict `prominence_weights = {"low": 1.0, "med": 2.0,
"high": 3.0}`; dict lookup raises `KeyError` (`none`) on any other key.
The weights are the integral floats 1.0, 2.0, 3.0 and are modelled by
the exact naturals 1, 2, 3. -/
def prominence_weights (p : List Char) : Option Nat :=
  if p = "low".toList then some 1
  else if p = "med".toList then some 2
  else if p = "high".toList then some 3
  else none

/-- Hexadecimal digit value of a character (`0`–`9`, `a`–`f`, `A`–`F`
by character code), `none` for a non-digit. -/
def hexDigit (c : Char) : Option Nat :=
  if 48 ≤ c.toNat ∧ c.toNat ≤ 57 then some (c.toNat - 48)
  else if 97 ≤ c.toNat ∧ c.toNat ≤ 102 then some (c.toNat - 97 + 10)
  else if 65 ≤ c.toNat ∧ c.toNat ≤ 70 then some (c.toNat - 65 + 10)
  else none

/-- Value of a hexadecimal digit string, accumulator form. -/
def hexDigitsAux : List Char → Nat → Option Nat
  | [], acc => some acc
  | c :: cs, acc =>
    match hexDigit c with
    | some d => hexDigitsAux cs (acc * 16 + d)
    | none => none

/-- Python `int(s, 16)` on a slice: non-empty string of hex digits;
`none` models the `ValueError` on anything else.  (Python additionally
accepts whitespace, a sign, a `0x` marker and underscore grouping;
those are not modelled.) -/
def hexDigits (s : List Char) : Option Nat :=
  if s = [] then none else hexDigitsAux s 0

/-- `hex_to_rgb`: strip every leading `#` (Python `lstrip("#")`), then
decode the slices `[0:2]`, `[2:4]`, `[4:6]` as hex numbers.  `none`
models the `ValueError` when a slice is empty or not hexadecimal. -/
def hex_to_rgb (s : List Char) : Option (Nat × Nat × Nat) :=
  let t := s.dropWhile (fun c => c = '#')
  match hexDigits (t.take 2), hexDigits ((t.drop 2).take 2),
      hexDigits ((t.drop 4).take 2) with
  | some r, some g, some b => some (r, g, b)
  | _, _, _ => none

/-- The character Python `"{:02x}"` uses for hex digit `d`. -/
def hexChar (d : Nat) : Char :=
  if d < 10 then Char.ofNat ('0'.toNat + d) else Char.ofNat ('a'.toNat + (d - 10))

/-- Lowercase hexadecimal digits of `n`, most significant first (fuel
form so that the definition evaluates in the kernel). -/
def natToHexAux : Nat → Nat → List Char
  | 0, _ => []
  | fuel + 1, n =>
    if n = 0 then [] else natToHexAux fuel (n / 16) ++ [hexChar (n % 16)]

/-- Lowercase hexadecimal rendering of `n`, as Python `"{:x}"`. -/
def natToHex (n : Nat) : List Char :=
  if n = 0 then ['0'] else natToHexAux n n

/-- Python `"{:02x}".format(n)`: lowercase hex, left-padded with `0` to
width two (wider values keep all their digits). -/
def format02x (n : Nat) : List Char :=
  let ds := natToHex n
  if ds.length < 2 then '0' :: ds else ds

/-- `rgb_to_hex`: `"#{:02x}{:02x}{:02x}".format(*rgb)`. -/
def rgb_to_hex (rgb : Nat × Nat × Nat) : List Char :=
  '#' :: (format02x rgb.1 ++ format02x rgb.2.1 ++ format02x rgb.2.2)

/-- One row of the joined dataframe handed to the aggregation loop.
Fields not used by the core are omitted.  `none` models a pandas
missing value (`pd.notna` false).  The source copies the `colour`
column into `colour_hex` (`flowering_tree_df["colour_hex"] =
flowering_tree_df["colour"]`), so the record carries the one field
`colour` and the blender reads it where the source reads
`colour_hex`. -/
structure TreeRow where
  TreeName : List Char
  colour : Option (List Char)
  prominence : Option (List Char)
  h3_index : Nat
  flowering : List Bool
  deriving DecidableEq

/-- The `for _, row in group.iterrows()` loop of
`blend_colors_with_prominence`, building the parallel lists `colors`
and `weights` as a list of pairs.  A row whose `colour` or
`prominence` is missing is skipped; for a row with both present the
source evaluates `hex_to_rgb(row["colour_hex"])` and
`prominence_weights[row["prominence"]]`, either of which can raise
(`ValueError` resp. `KeyError`), modelled as `none`. -/
def collectColoursWeights : List TreeRow → Option (List ((Nat × Nat × Nat) × Nat))
  | [] => some []
  | row :: rest =>
    match row.colour, row.prominence with
    | some chex, some prom =>
      match hex_to_rgb chex, prominence_weights prom with
      | some c, some w => (collectColoursWeights rest).map (fun l => (c, w) :: l)
      | _, _ => none
    | _, _ => collectColoursWeights rest

/-- `blend_colors_with_prominence`.  The outer `Option` models an
uncaught exception; the inner `Option` is the function's own `None`
result.  The source computes the three channel sums and the division
in Python floats and truncates with `int(...)`; for the integer
channel values and the integral weights 1–3 involved that arithmetic
is exact, and `int` of the exact non-negative quotient is the floor,
i.e. natural-number division, which is how it is modelled here. -/
def blend_colors_with_prominence (group : List TreeRow) : Option (Option (List Char)) :=
  match collectColoursWeights group with
  | none => none
  | some cws =>
    if cws = [] then some none
    else
      let total_weight := (cws.map (fun cw => cw.2)).sum
      if total_weight = 0 then some none
      else
        let r := (cws.map (fun cw => cw.1.1 * cw.2)).sum / total_weight
        let g := (cws.map (fun cw => cw.1.2.1 * cw.2)).sum / total_weight
        let b := (cws.map (fun cw => cw.1.2.2 * cw.2)).sum / total_weight
        some (some (rgb_to_hex (r, g, b)))

/-!  ## The per-month aggregation loop  -/

/-- A record of the `blended_colors` list built by the month loop:
cell id, blended color, and the cell's species list. -/
structure CellAgg where
  h3_index : Nat
  colour_hex : List Char
  tree_species : List (List Char)
  deriving DecidableEq

/-- First-occurrence deduplication, the order `pandas.Series.unique`
keeps (accumulator form). -/
def pdUniqueAux {α : Type} [DecidableEq α] : List α → List α → List α
  | [], _ => []
  | x :: xs, seen =>
    if x ∈ seen then pdUniqueAux xs seen else x :: pdUniqueAux xs (x :: seen)

/-- `pandas.Series.unique().tolist()`: values in first-occurrence order,
each exactly once. -/
def pdUnique {α : Type} [DecidableEq α] (l : List α) : List α :=
  pdUniqueAux l []

/-- Insert into a sorted list of naturals, keeping order. -/
def insertSorted (x : Nat) : List Nat → List Nat
  | [] => [x]
  | y :: ys => if x ≤ y then x :: y :: ys else y :: insertSorted x ys

/-- Insertion sort on naturals. -/
def sortNat : List Nat → List Nat
  | [] => []
  | x :: xs => insertSorted x (sortNat xs)

/-- The iteration keys of `groupby("h3_index")`: the distinct cell ids,
in ascending order (pandas `groupby` sorts its keys). -/
def groupbyKeys (rs : List TreeRow) : List Nat :=
  sortNat (pdUnique (rs.map (fun r => r.h3_index)))

/-- Membership test of a row in the group of cell `k`. -/
def inCell (k : Nat) (r : TreeRow) : Bool := r.h3_index = k

/-- The `for h3_index, group in h3_groups` loop building
`blended_colors`: per key, blend the group's colors; the Python
truthiness test `if blended_color:` keeps the cell when the blend is a
non-empty string; `group["TreeName"].unique().tolist()` collects the
distinct species names of all rows of the group. -/
def buildAggs (flowering : List TreeRow) : List Nat → Option (List CellAgg)
  | [] => some []
  | k :: ks =>
    let g := flowering.filter (inCell k)
    match blend_colors_with_prominence g with
    | none => none
    | some none => buildAggs flowering ks
    | some (some c) =>
      if c = [] then buildAggs flowering ks
      else
        (buildAggs flowering ks).map
          (fun rest =>
            { h3_index := k, colour_hex := c,
              tree_species := pdUnique (g.map (fun r => r.TreeName)) } :: rest)

/-- Whether row `r` flowers in month `m` (0-based): the boolean month
column the filter `flowering_tree_df[month_column] == True` reads. -/
def flowersInMonth (r : TreeRow) (m : Nat) : Bool := r.flowering.getD m false

/-- One iteration of the month loop, up to the `blended_colors` list:
filter to the rows flowering in month `m`, group by cell id, blend
each group.  `none` models an uncaught exception from blending;
`some []` is the month the source skips without error. -/
def aggregateMonth (rs : List TreeRow) (m : Nat) : Option (List CellAgg) :=
  let flowering := rs.filter (fun r => flowersInMonth r m)
  buildAggs flowering (groupbyKeys flowering)

/-!  ## The cell-boundary polygon  -/

/-- Modelled from the spec: the underlying boundary ring construction of
`shapely.geometry.Polygon`, an external collaborator — the coordinate
sequence is closed into a ring by appending the first vertex when the
sequence does not already end with it.  The coordinate type is a
parameter: the source's float coordinates are only carried, never
computed with. -/
def shapelyRing {α : Type} [DecidableEq α] (coords : List (α × α)) : List (α × α) :=
  match coords with
  | [] => []
  | c :: cs =>
    if (c :: cs).getLast? = some c then c :: cs else (c :: cs) ++ [c]

/-- `h3_cell_to_polygon`, parametrized by the vertex list that the
external call `h3.cell_to_boundary(h3_index)` returns as `(lat, lng)`
pairs: the comprehension `[(lng, lat) for lat, lng in boundary]`
swaps every vertex into `(x, y) = (lng, lat)` order, and
`Polygon(polygon_coords)` forms the closed ring. -/
def h3_cell_to_polygon {α : Type} [DecidableEq α] (boundary : List (α × α)) :
    List (α × α) :=
  let polygon_coords := boundary.map (fun v => (v.2, v.1))
  shapelyRing polygon_coords

/-!  ## Statement-side helper definitions  -/

/-- Whether a row passes the `pd.notna` guard of the blender: both its
`colour` and its `prominence` are present. -/
def contributing (r : TreeRow) : Bool :=
  r.colour.isSome && r.prominence.isSome

/-- The RGB triple the blender decodes for a row (default junk when the
row does not contribute). -/
def rowRGB (r : TreeRow) : Nat × Nat × Nat :=
  (r.colour.bind hex_to_rgb).getD (0, 0, 0)

/-- The prominence weight the blender looks up for a row (default junk
when the row does not contribute). -/
def rowWeight (r : TreeRow) : Nat :=
  (r.prominence.bind prominence_weights).getD 0

/-- The (color, weight) pair the blender collects for a row. -/
def rowData (r : TreeRow) : (Nat × Nat × Nat) × Nat :=
  (rowRGB r, rowWeight r)

/-- A row on which the blender cannot raise: if both fields are present,
the colour decodes and the prominence is a recognized category. -/
def rowOkB (r : TreeRow) : Bool :=
  match r.colour, r.prominence with
  | some c, some p => (hex_to_rgb c).isSome && (prominence_weights p).isSome
  | _, _ => true

/-- A row with a valid colour and a valid prominence: both present, the
colour decodes, the prominence is recognized. -/
def validRowB (r : TreeRow) : Bool :=
  match r.colour, r.prominence with
  | some c, some p => (hex_to_rgb c).isSome && (prominence_weights p).isSome
  | _, _ => false

/-- A well-formed colour string: `#` followed by exactly six hexadecimal
digits. -/
def wellFormedColourB (s : List Char) : Bool :=
  match s with
  | c :: t => c == '#' && t.length == 6 && t.all (fun c2 => (hexDigit c2).isSome)
  | [] => false

/-- A row carrying only well-formed data: a present colour is `#` plus
six hex digits and a present prominence is a recognized category. -/
def rowWellFormedB (r : TreeRow) : Bool :=
  (match r.colour with
   | some c => wellFormedColourB c
   | none => true) &&
  (match r.prominence with
   | some p => (prominence_weights p).isSome
   | none => true)

/-- A lowercase hexadecimal digit character. -/
def lowerHexDigitB (c : Char) : Bool :=
  (48 ≤ c.toNat && c.toNat ≤ 57) || (97 ≤ c.toNat && c.toNat ≤ 102)

/-!  ## Lemmas about the month-range parser  -/

theorem splitOnChar_sep_not_mem (sep : Char) (s : List Char) :
    ∀ p ∈ splitOnChar sep s, sep ∉ p := by
  induction s with
  | nil =>
    intro p hp
    simp [splitOnChar] at hp
    simp [hp]
  | cons c cs ih =>
    intro p hp
    simp only [splitOnChar] at hp
    by_cases hc : c = sep
    · simp [hc] at hp
      rcases hp with hp | hp
      · simp [hp]
      · exact ih p hp
    · simp [hc] at hp
      rcases hmatch : splitOnChar sep cs with _ | ⟨q, qs⟩
      · rw [hmatch] at hp
        simp at hp
        subst hp
        simp only [List.mem_singleton]
        exact fun h => hc h.symm
      · rw [hmatch] at hp
        simp at hp
        rcases hp with hp | hp
        · subst hp
          intro hmem
          rcases List.mem_cons.mp hmem with h | h
          · exact hc h.symm
          · exact ih q (by rw [hmatch]; exact List.mem_cons_self q qs) h
        · exact ih p (by rw [hmatch]; exact List.mem_cons_of_mem q hp)

theorem stripPySpace_subset (s : List Char) : ∀ c ∈ stripPySpace s, c ∈ s := by
  intro c hc
  unfold stripPySpace at hc
  rw [List.mem_reverse] at hc
  have h1 := (List.dropWhile_sublist isPySpace
    (l := (s.dropWhile isPySpace).reverse)).subset hc
  rw [List.mem_reverse] at h1
  exact (List.dropWhile_sublist isPySpace (l := s)).subset h1

theorem pyParseInt_nonneg (s : List Char) (x : Int)
    (h : pyParseInt s = some x) (hm : '-' ∉ s) : 0 ≤ x := by
  unfold pyParseInt at h
  split at h
  · exact absurd h (by simp)
  · rename_i c ds hs
    have hcs : c ∈ s :=
      stripPySpace_subset s c (by rw [hs]; exact List.mem_cons_self c ds)
    have hminus : c ≠ '-' := fun hc => hm (hc ▸ hcs)
    by_cases hplus : c = '+'
    · rw [if_pos hplus] at h
      simp at h
      rcases h with ⟨n, _, hn⟩
      omega
    · rw [if_neg hplus, if_neg hminus] at h
      simp at h
      rcases h with ⟨n, _, hn⟩
      omega

theorem parseSegment_eq_some (r : List Char) (a b : Int)
    (h : parseSegment r = some (a, b)) :
    ∃ p q, splitOnChar '-' r = [p, q] ∧
      pyParseInt p = some a ∧ pyParseInt q = some b := by
  unfold parseSegment at h
  split at h
  · rename_i p q heq
    split at h
    · rename_i x y hx hy
      injection h with h3
      injection h3 with h4 h5
      subst h4; subst h5
      exact ⟨p, q, heq, hx, hy⟩
    · exact absurd h (by simp)
  · exact absurd h (by simp)

theorem parseSegment_nonneg (r : List Char) (a b : Int)
    (h : parseSegment r = some (a, b)) : 0 ≤ a ∧ 0 ≤ b := by
  obtain ⟨p, q, hs, hp, hq⟩ := parseSegment_eq_some r a b h
  have hpm : '-' ∉ p := splitOnChar_sep_not_mem '-' r p (by rw [hs]; simp)
  have hqm : '-' ∉ q := splitOnChar_sep_not_mem '-' r q (by rw [hs]; simp)
  exact ⟨pyParseInt_nonneg p a hp hpm, pyParseInt_nonneg q b hq hqm⟩

theorem mem_pyRange (lo hi i : Int) : i ∈ pyRange lo hi ↔ lo ≤ i ∧ i < hi := by
  unfold pyRange
  simp only [List.mem_map, List.mem_range, Int.ofNat_eq_coe]
  constructor
  · rintro ⟨k, hk, rfl⟩
    omega
  · rintro ⟨h1, h2⟩
    exact ⟨(i - lo).toNat, by omega, by omega⟩

theorem pyMonthIndex_eq_none (i : Int) :
    pyMonthIndex i = none ↔ i < -12 ∨ 12 ≤ i := by
  unfold pyMonthIndex
  split <;> rename_i h1
  · simp; omega
  · split <;> rename_i h2
    · simp; omega
    · simp; omega

theorem pyMonthIndex_lt (i : Int) (j : Nat) (h : pyMonthIndex i = some j) :
    j < 12 := by
  unfold pyMonthIndex at h
  split at h <;> rename_i h1
  · simp at h; omega
  · split at h <;> rename_i h2
    · simp at h; omega
    · simp at h

theorem pyMonthIndex_in_range (i : Int) (j : Nat) (h0 : 0 ≤ i) (h1 : i < 12) :
    pyMonthIndex i = some j ↔ (i : Int) = j := by
  unfold pyMonthIndex
  rw [if_pos ⟨h0, h1⟩]
  simp
  omega

theorem markMonths_eq_none (is : List Int) :
    ∀ cal, markMonths is cal = none ↔ ∃ i ∈ is, pyMonthIndex i = none := by
  induction is with
  | nil => intro cal; simp [markMonths]
  | cons i is ih =>
    intro cal
    simp only [markMonths]
    rcases h : pyMonthIndex i with _ | j
    · simp [h]
    · rw [ih]
      simp [h]

theorem markMonths_some (is : List Int) :
    ∀ cal cal2, markMonths is cal = some cal2 →
      cal2.length = cal.length ∧
      ∀ j, j < cal.length →
        (cal2.getD j false = true ↔
          cal.getD j false = true ∨ ∃ i ∈ is, pyMonthIndex i = some j) := by
  induction is with
  | nil =>
    intro cal cal2 h
    simp [markMonths] at h
    subst h
    simp
  | cons i is ih =>
    intro cal cal2 h
    simp only [markMonths] at h
    rcases hi : pyMonthIndex i with _ | k
    · rw [hi] at h; exact absurd h (by simp)
    · rw [hi] at h
      obtain ⟨hlen, hget⟩ := ih (cal.set k true) cal2 h
      rw [List.length_set] at hlen
      refine ⟨hlen, fun j hj => ?_⟩
      rw [hget j (by rw [List.length_set]; exact hj)]
      have hset : (cal.set k true).getD j false = true ↔
          (j = k ∨ cal.getD j false = true) := by
        by_cases hjk : j = k
        · subst hjk
          simp [List.getD_eq_getElem?_getD, List.getElem?_set_self, hj]
        · simp [List.getD_eq_getElem?_getD, List.getElem?_set_ne (by omega : k ≠ j), hjk]
      rw [hset]
      constructor
      · rintro ((rfl | hc) | ⟨i2, hi2, hpi2⟩)
        · exact Or.inr ⟨i, by simp, hi⟩
        · exact Or.inl hc
        · exact Or.inr ⟨i2, by simp [hi2], hpi2⟩
      · rintro (hc | ⟨i2, hi2, hpi2⟩)
        · exact Or.inl (Or.inr hc)
        · rcases List.mem_cons.mp hi2 with rfl | hi2
          · exact Or.inl (Or.inl (by rw [hi] at hpi2; injection hpi2 with h2; omega))
          · exact Or.inr ⟨i2, hi2, hpi2⟩

theorem markMonths_seg_none_iff (a b : Int) (ha : 0 ≤ a) (hb : 0 ≤ b)
    (cal : List Bool) :
    markMonths (pyRange (a - 1) (b - 1 + 1)) cal = none ↔ a ≤ b ∧ 13 ≤ b := by
  rw [markMonths_eq_none]
  constructor
  · rintro ⟨i, hi, hnone⟩
    rw [mem_pyRange] at hi
    rw [pyMonthIndex_eq_none] at hnone
    omega
  · rintro ⟨h1, h2⟩
    exact ⟨b - 1, by rw [mem_pyRange]; omega, by rw [pyMonthIndex_eq_none]; omega⟩

theorem convertSegments_eq_none (segs : List (List Char)) :
    ∀ cal, convertSegments segs cal = none ↔
      ∃ r ∈ segs, parseSegment r = none ∨
        ∃ a b : Int, parseSegment r = some (a, b) ∧ a ≤ b ∧ 13 ≤ b := by
  induction segs with
  | nil => intro cal; simp [convertSegments]
  | cons r rs ih =>
    intro cal
    constructor
    · intro h
      simp only [convertSegments] at h
      split at h
      · rename_i heq
        exact ⟨r, List.mem_cons_self r rs, Or.inl heq⟩
      · rename_i se heq
        split at h
        · rename_i heq2
          rcases se with ⟨a, b⟩
          obtain ⟨ha, hb⟩ := parseSegment_nonneg r a b heq
          exact ⟨r, List.mem_cons_self r rs,
            Or.inr ⟨a, b, heq, (markMonths_seg_none_iff a b ha hb cal).mp heq2⟩⟩
        · rename_i cal2 heq2
          obtain ⟨r2, hmem, hbad⟩ := (ih cal2).mp h
          exact ⟨r2, List.mem_cons_of_mem r hmem, hbad⟩
    · rintro ⟨r2, hmem, hbad⟩
      rcases List.mem_cons.mp hmem with rfl | hmem2
      · rcases hbad with hnone | ⟨a, b, hsome, hab, hb13⟩
        · simp only [convertSegments, hnone]
        · obtain ⟨ha, hb⟩ := parseSegment_nonneg r2 a b hsome
          have hmm := (markMonths_seg_none_iff a b ha hb cal).mpr ⟨hab, hb13⟩
          simp only [convertSegments, hsome, hmm]
      · simp only [convertSegments]
        split
        · rfl
        · split
          · rfl
          · rename_i cal2 heq2
            exact (ih cal2).mpr ⟨r2, hmem2, hbad⟩

theorem markMonths_seg_wf (a b : Int) (h1 : 1 ≤ a) (h2 : a ≤ b) (h3 : b ≤ 12)
    (cal : List Bool) (hlen : cal.length = 12) :
    ∃ cal2, markMonths (pyRange (a - 1) (b - 1 + 1)) cal = some cal2 ∧
      cal2.length = 12 ∧
      ∀ j, j < 12 → (cal2.getD j false = true ↔
        cal.getD j false = true ∨ (a ≤ (j : Int) + 1 ∧ (j : Int) + 1 ≤ b)) := by
  rcases hmm : markMonths (pyRange (a - 1) (b - 1 + 1)) cal with _ | cal2
  · rw [markMonths_seg_none_iff a b (by omega) (by omega) cal] at hmm
    omega
  · obtain ⟨hlen2, hget⟩ := markMonths_some _ cal cal2 hmm
    refine ⟨cal2, rfl, by omega, fun j hj => ?_⟩
    rw [hget j (by omega)]
    constructor
    · rintro (hc | ⟨i, hi, hpi⟩)
      · exact Or.inl hc
      · rw [mem_pyRange] at hi
        rw [pyMonthIndex_in_range i j (by omega) (by omega)] at hpi
        exact Or.inr (by omega)
    · rintro (hc | ⟨hj1, hj2⟩)
      · exact Or.inl hc
      · refine Or.inr ⟨(j : Int), by rw [mem_pyRange]; omega, ?_⟩
        rw [pyMonthIndex_in_range _ _ (by omega) (by omega)]

theorem convertSegments_wf (segs : List (List Char)) :
    ∀ cal, cal.length = 12 →
      (∀ r ∈ segs, ∃ a b : Int, parseSegment r = some (a, b) ∧
        1 ≤ a ∧ a ≤ b ∧ b ≤ 12) →
      ∃ cal2, convertSegments segs cal = some cal2 ∧ cal2.length = 12 ∧
        ∀ j, j < 12 → (cal2.getD j false = true ↔ cal.getD j false = true ∨
          ∃ r ∈ segs, ∃ a b : Int, parseSegment r = some (a, b) ∧
            a ≤ (j : Int) + 1 ∧ (j : Int) + 1 ≤ b) := by
  induction segs with
  | nil =>
    intro cal hlen _
    exact ⟨cal, rfl, hlen, fun j hj => by simp [convertSegments]⟩
  | cons r rs ih =>
    intro cal hlen hwf
    obtain ⟨a, b, hp, ha1, hab, hb12⟩ := hwf r (List.mem_cons_self r rs)
    obtain ⟨cal2, hmm, hlen2, hget2⟩ := markMonths_seg_wf a b ha1 hab hb12 cal hlen
    obtain ⟨cal3, hcs, hlen3, hget3⟩ :=
      ih cal2 hlen2 (fun r2 h2 => hwf r2 (List.mem_cons_of_mem r h2))
    have hstep : convertSegments (r :: rs) cal = convertSegments rs cal2 := by
      simp only [convertSegments, hp, hmm]
    refine ⟨cal3, hstep ▸ hcs, hlen3, fun j hj => ?_⟩
    rw [hget3 j hj, hget2 j hj]
    constructor
    · rintro ((hc | ⟨hj1, hj2⟩) | ⟨r2, hmem2, a2, b2, hp2, hc2⟩)
      · exact Or.inl hc
      · exact Or.inr ⟨r, List.mem_cons_self r rs, a, b, hp, hj1, hj2⟩
      · exact Or.inr ⟨r2, List.mem_cons_of_mem r hmem2, a2, b2, hp2, hc2⟩
    · rintro (hc | ⟨r2, hmem2, a2, b2, hp2, hc2a, hc2b⟩)
      · exact Or.inl (Or.inl hc)
      · rcases List.mem_cons.mp hmem2 with rfl | hmem3
        · rw [hp] at hp2
          injection hp2 with hp3
          injection hp3 with hp4 hp5
          subst hp4; subst hp5
          exact Or.inl (Or.inr ⟨hc2a, hc2b⟩)
        · exact Or.inr ⟨r2, hmem3, a2, b2, hp2, hc2a, hc2b⟩

theorem initialCalendar_getD (j : Nat) : initialCalendar.getD j false = false := by
  unfold initialCalendar
  rw [List.getD_eq_getElem?_getD, List.getElem?_replicate]
  split <;> rfl

theorem pyRange_degenerate (a b : Int) (hba : b < a) :
    pyRange (a - 1) (b - 1 + 1) = [] := by
  unfold pyRange
  rw [show (b - 1 + 1 - (a - 1)).toNat = 0 from by omega]
  rfl

theorem convertSegments_degenerate (segs : List (List Char)) :
    ∀ cal, (∀ r ∈ segs, ∃ a b : Int, parseSegment r = some (a, b) ∧ b < a) →
      convertSegments segs cal = some cal := by
  induction segs with
  | nil => intro cal _; rfl
  | cons r rs ih =>
    intro cal h
    obtain ⟨a, b, hp, hba⟩ := h r (List.mem_cons_self r rs)
    have hmm : markMonths (pyRange (a - 1) (b - 1 + 1)) cal = some cal := by
      rw [pyRange_degenerate a b hba]
      rfl
    have hstep : convertSegments (r :: rs) cal = convertSegments rs cal := by
      simp only [convertSegments, hp, hmm]
    rw [hstep]
    exact ih cal (fun r2 h2 => h r2 (List.mem_cons_of_mem r h2))

/-!  ## Claims C1, C4, C5: the month-range parser  -/

/-- C1 (corrected): `convert_text_range_to_months` fails exactly when
some `";"`-segment does not parse as two integers separated by a single
dash, or when some segment parses to `(start, end)` with `start ≤ end`
and `end ≥ 13` (the walked index sequence reaches past December).  In
particular `"13-14"` and `"5"` both fail, and every string whose
segments are well-formed with both endpoints in `[1, 12]` parses
without error.  An endpoint below 1 alone does *not* make the parser
fail (see the counterexample `"0-1"`). -/
theorem C1_range_parse_failure :
    (∀ s : List Char,
      convert_text_range_to_months s = none ↔
        ∃ r ∈ splitOnChar ';' s, parseSegment r = none ∨
          ∃ a b : Int, parseSegment r = some (a, b) ∧ a ≤ b ∧ 13 ≤ b) ∧
    convert_text_range_to_months ("13-14".toList) = none ∧
    convert_text_range_to_months ("5".toList) = none ∧
    (∀ s : List Char,
      (∀ r ∈ splitOnChar ';' s, ∃ a b : Int, parseSegment r = some (a, b) ∧
        1 ≤ a ∧ a ≤ 12 ∧ 1 ≤ b ∧ b ≤ 12) →
      convert_text_range_to_months s ≠ none) := by
  refine ⟨fun s => convertSegments_eq_none _ _, by decide, by decide, ?_⟩
  intro s hwf hnone
  obtain ⟨r, hr, hbad⟩ := (convertSegments_eq_none (splitOnChar ';' s) initialCalendar).mp hnone
  obtain ⟨a, b, hp, _, _, _, hb12⟩ := hwf r hr
  rcases hbad with hnone2 | ⟨a2, b2, hp2, _, hb13⟩
  · rw [hp] at hnone2
    exact absurd hnone2 (by simp)
  · rw [hp] at hp2
    injection hp2 with hp3
    injection hp3 with hp4 hp5
    omega

/-- C1 counterexample: the claim says a segment endpoint outside
`[1, 12]` always fails, but `"0-1"` parses to the segment `(0, 1)`
whose start endpoint `0` is below 1 and the function returns without
error — Python's negative list indexing maps index `-1` to `Dec`, so
the result marks December and January true. -/
theorem C1_counterexample :
    parseSegment ("0-1".toList) = some (0, 1) ∧
    ¬ (1 ≤ (0 : Int)) ∧
    splitOnChar ';' ("0-1".toList) = ["0-1".toList] ∧
    convert_text_range_to_months ("0-1".toList)
      = some [true, false, false, false, false, false,
              false, false, false, false, false, true] := by decide

/-- C4 (confirmed): for every well-formed range string (each
`";"`-segment parses as `start-end` with `1 ≤ start ≤ end ≤ 12`),
`convert_text_range_to_months` returns a 12-entry calendar whose entry
for the `j`-th month label is true exactly when `j + 1` lies in
`[start, end]` of at least one segment — segments combine by logical
OR — and false otherwise. -/
theorem C4_calendar_correctness (s : List Char)
    (h : ∀ r ∈ splitOnChar ';' s, ∃ a b : Int, parseSegment r = some (a, b) ∧
      1 ≤ a ∧ a ≤ b ∧ b ≤ 12) :
    ∃ cal, convert_text_range_to_months s = some cal ∧ cal.length = 12 ∧
      ∀ j, j < 12 → (cal.getD j false = true ↔
        ∃ r ∈ splitOnChar ';' s, ∃ a b : Int, parseSegment r = some (a, b) ∧
          a ≤ (j : Int) + 1 ∧ (j : Int) + 1 ≤ b) := by
  obtain ⟨cal2, h1, h2, h3⟩ :=
    convertSegments_wf (splitOnChar ';' s) initialCalendar (by decide) h
  refine ⟨cal2, h1, h2, fun j hj => ?_⟩
  rw [h3 j hj, initialCalendar_getD j]
  simp

/-- C4 witness: the range string `"3-5"` is well-formed and its
calendar is true exactly for the 3rd, 4th and 5th month labels. -/
theorem C4_witness :
    (∀ r ∈ splitOnChar ';' ("3-5".toList), ∃ a b : Int,
      parseSegment r = some (a, b) ∧ 1 ≤ a ∧ a ≤ b ∧ b ≤ 12) ∧
    (∃ cal, convert_text_range_to_months ("3-5".toList) = some cal ∧
      cal.length = 12 ∧
      ∀ j, j < 12 → (cal.getD j false = true ↔
        ∃ r ∈ splitOnChar ';' ("3-5".toList), ∃ a b : Int,
          parseSegment r = some (a, b) ∧
          a ≤ (j : Int) + 1 ∧ (j : Int) + 1 ≤ b)) :=
  have hh : ∀ r ∈ splitOnChar ';' ("3-5".toList), ∃ a b : Int,
      parseSegment r = some (a, b) ∧ 1 ≤ a ∧ a ≤ b ∧ b ≤ 12 := by
    intro r hr
    rw [show splitOnChar ';' ("3-5".toList) = ["3-5".toList] from by decide] at hr
    rw [List.mem_singleton] at hr
    subst hr
    exact ⟨3, 5, by decide, by decide, by decide, by decide⟩
  ⟨hh, C4_calendar_correctness ("3-5".toList) hh⟩

/-- C5 (confirmed): a segment `start-end` with `end < start` and both
endpoints in `[1, 12]` is walked as the literal Python
`range(start - 1, end - 1 + 1)`, which degenerates to the empty index
list — no wraparound logic — so such segments mark no month true and
the function returns the all-false calendar without error. -/
theorem C5_wraparound_degenerates (s : List Char)
    (h : ∀ r ∈ splitOnChar ';' s, ∃ a b : Int, parseSegment r = some (a, b) ∧
      1 ≤ a ∧ a ≤ 12 ∧ 1 ≤ b ∧ b ≤ 12 ∧ b < a) :
    (∀ a b : Int, b < a → pyRange (a - 1) (b - 1 + 1) = []) ∧
    convert_text_range_to_months s = some initialCalendar := by
  refine ⟨pyRange_degenerate, ?_⟩
  exact convertSegments_degenerate (splitOnChar ';' s) initialCalendar
    (fun r hr => by
      obtain ⟨a, b, hp, _, _, _, _, hba⟩ := h r hr
      exact ⟨a, b, hp, hba⟩)

/-- C5 witness: the wraparound-shaped range string `"11-3"` marks no
month and raises no error. -/
theorem C5_witness :
    (∀ r ∈ splitOnChar ';' ("11-3".toList), ∃ a b : Int,
      parseSegment r = some (a, b) ∧
      1 ≤ a ∧ a ≤ 12 ∧ 1 ≤ b ∧ b ≤ 12 ∧ b < a) ∧
    ((∀ a b : Int, b < a → pyRange (a - 1) (b - 1 + 1) = []) ∧
      convert_text_range_to_months ("11-3".toList) = some initialCalendar) :=
  have hh : ∀ r ∈ splitOnChar ';' ("11-3".toList), ∃ a b : Int,
      parseSegment r = some (a, b) ∧
      1 ≤ a ∧ a ≤ 12 ∧ 1 ≤ b ∧ b ≤ 12 ∧ b < a := by
    intro r hr
    rw [show splitOnChar ';' ("11-3".toList) = ["11-3".toList] from by decide] at hr
    rw [List.mem_singleton] at hr
    subst hr
    exact ⟨11, 3, by decide, by decide, by decide, by decide, by decide, by decide⟩
  ⟨hh, C5_wraparound_degenerates ("11-3".toList) hh⟩

/-!  ## Lemmas about the blender  -/

theorem prominence_weights_bounds (p : List Char) (w : Nat)
    (h : prominence_weights p = some w) : 1 ≤ w ∧ w ≤ 3 := by
  unfold prominence_weights at h
  split at h
  · injection h with h2; omega
  · split at h
    · injection h with h2; omega
    · split at h
      · injection h with h2; omega
      · exact absurd h (by simp)

theorem collect_weights_pos (g : List TreeRow) (cws : List ((Nat × Nat × Nat) × Nat))
    (h : collectColoursWeights g = some cws) : ∀ cw ∈ cws, 1 ≤ cw.2 := by
  induction g generalizing cws with
  | nil =>
    simp [collectColoursWeights] at h
    subst h
    simp
  | cons row rest ih =>
    intro cw hcw
    simp only [collectColoursWeights] at h
    split at h
    · rename_i chex prom hc hp
      split at h
      · rename_i c w hhex hw
        rcases hrest : collectColoursWeights rest with _ | l
        · rw [hrest] at h; exact absurd h (by simp)
        · rw [hrest] at h
          simp at h
          subst h
          rcases List.mem_cons.mp hcw with rfl | hcw2
          · exact (prominence_weights_bounds prom w hw).1
          · exact ih l hrest cw hcw2
      · exact absurd h (by simp)
    · exact ih cws h cw hcw

theorem collect_eq_nil_iff (g : List TreeRow) :
    collectColoursWeights g = some [] ↔
      ∀ r ∈ g, r.colour = none ∨ r.prominence = none := by
  induction g with
  | nil => simp [collectColoursWeights]
  | cons row rest ih =>
    simp only [collectColoursWeights]
    constructor
    · intro h
      split at h
      · rename_i chex prom hc hp
        split at h
        · rename_i c w hhex hw
          rcases hrest : collectColoursWeights rest with _ | l <;> rw [hrest] at h
          · exact absurd h (by simp)
          · simp at h
        · exact absurd h (by simp)
      · rename_i hno
        intro r hr
        rcases List.mem_cons.mp hr with rfl | hr2
        · rcases hc : r.colour with _ | c
          · exact Or.inl rfl
          · rcases hp : r.prominence with _ | p
            · exact Or.inr rfl
            · exact (hno c p hc hp).elim
        · exact ih.mp h r hr2
    · intro h
      have hhead := h row (List.mem_cons_self row rest)
      split
      · rename_i chex prom hc hp
        rw [hc, hp] at hhead
        rcases hhead with h2 | h2 <;> exact absurd h2 (by simp)
      · exact ih.mpr (fun r hr => h r (List.mem_cons_of_mem row hr))

theorem collect_wf (g : List TreeRow) (hok : ∀ r ∈ g, rowOkB r = true) :
    collectColoursWeights g = some ((g.filter contributing).map rowData) := by
  induction g with
  | nil => rfl
  | cons row rest ih =>
    have hrow := hok row (List.mem_cons_self row rest)
    have ihr := ih (fun r hr => hok r (List.mem_cons_of_mem row hr))
    simp only [collectColoursWeights]
    split
    · rename_i chex prom hc hp
      unfold rowOkB at hrow
      rw [hc, hp] at hrow
      simp only [Bool.and_eq_true, Option.isSome_iff_exists] at hrow
      obtain ⟨⟨c, hhex⟩, w, hw⟩ := hrow
      have hcontrib : contributing row = true := by
        unfold contributing
        rw [hc, hp]
        rfl
      have hdata : rowData row = (c, w) := by
        unfold rowData rowRGB rowWeight
        rw [hc, hp]
        simp [hhex, hw]
      simp [hhex, hw, ihr, List.filter_cons, hcontrib, hdata]
    · rename_i hno
      have hcontrib : contributing row = false := by
        unfold contributing
        rcases hc : row.colour with _ | c
        · rfl
        · rcases hp : row.prominence with _ | p
          · simp
          · exact (hno c p hc hp).elim
      simp only [List.filter_cons, hcontrib]
      simpa using ihr

theorem blend_eq_some_none_iff (g : List TreeRow) :
    blend_colors_with_prominence g = some none ↔
      collectColoursWeights g = some [] := by
  unfold blend_colors_with_prominence
  rcases hcol : collectColoursWeights g with _ | cws
  · simp
  · by_cases hnil : cws = []
    · subst hnil
      simp
    · have hpos : 0 < (cws.map (fun cw => cw.2)).sum := by
        rcases cws with _ | ⟨cw0, cws2⟩
        · exact absurd rfl hnil
        · have h1 : 1 ≤ cw0.2 :=
            collect_weights_pos g _ hcol cw0 (List.mem_cons_self _ _)
          simp only [List.map_cons, List.sum_cons]
          omega
      simp [hnil, Nat.pos_iff_ne_zero.mp hpos]

theorem blend_wf_some (g : List TreeRow) (hok : ∀ r ∈ g, rowOkB r = true)
    (hc : g.filter contributing ≠ []) :
    blend_colors_with_prominence g =
      some (some (rgb_to_hex (
        (((g.filter contributing).map rowData).map (fun cw => cw.1.1 * cw.2)).sum /
          (((g.filter contributing).map rowData).map (fun cw => cw.2)).sum,
        (((g.filter contributing).map rowData).map (fun cw => cw.1.2.1 * cw.2)).sum /
          (((g.filter contributing).map rowData).map (fun cw => cw.2)).sum,
        (((g.filter contributing).map rowData).map (fun cw => cw.1.2.2 * cw.2)).sum /
          (((g.filter contributing).map rowData).map (fun cw => cw.2)).sum))) := by
  have hcol := collect_wf g hok
  have hnil : (g.filter contributing).map rowData ≠ [] := by simpa using hc
  have hpos : 0 < (((g.filter contributing).map rowData).map (fun cw => cw.2)).sum := by
    rcases hmap : (g.filter contributing).map rowData with _ | ⟨cw0, cws2⟩
    · exact absurd hmap hnil
    · have h1 : 1 ≤ cw0.2 :=
        collect_weights_pos g _ (hmap ▸ hcol) cw0 (List.mem_cons_self _ _)
      simp only [List.map_cons, List.sum_cons]
      omega
  have hpos2 : ((g.filter contributing).map ((fun cw => cw.2) ∘ rowData)).sum ≠ 0 := by
    rw [← List.map_map]
    omega
  unfold blend_colors_with_prominence
  rw [hcol]
  simp [hnil, hpos2]

theorem natDiv_eq_floor (A W : Nat) (hW : 0 < W) :
    ((A / W : Nat) : Int) = ⌊(A : ℚ) / (W : ℚ)⌋ := by
  have hWQ : (0 : ℚ) < (W : ℚ) := by exact_mod_cast hW
  rw [eq_comm, Int.floor_eq_iff]
  constructor
  · rw [le_div_iff hWQ]
    have h1 : (A / W) * W ≤ A := Nat.div_mul_le_self A W
    exact_mod_cast h1
  · rw [div_lt_iff hWQ]
    have h2 : A < (A / W + 1) * W := by
      have h3 := Nat.div_add_mod A W
      have h4 := Nat.mod_lt A hW
      calc A = W * (A / W) + A % W := h3.symm
        _ < W * (A / W) + W := by omega
        _ = (A / W + 1) * W := by ring
    exact_mod_cast h2

theorem sum_map_natCast {α : Type} (l : List α) (f : α → Nat) :
    (((l.map f).sum : Nat) : ℚ) = (l.map (fun x => (f x : ℚ))).sum := by
  induction l with
  | nil => simp
  | cons x xs ih =>
    simp only [List.map_cons, List.sum_cons, Nat.cast_add, ih]

theorem collect_crash (g : List TreeRow) (row : TreeRow) (p : List Char)
    (h1 : row ∈ g) (h2 : row.colour ≠ none) (h3 : row.prominence = some p)
    (hw : prominence_weights p = none) : collectColoursWeights g = none := by
  induction g with
  | nil => simp at h1
  | cons r0 rest ih =>
    rcases List.mem_cons.mp h1 with rfl | hmem
    · obtain ⟨c, hc⟩ : ∃ c, row.colour = some c := by
        rcases hcc : row.colour with _ | c
        · exact absurd hcc h2
        · exact ⟨c, rfl⟩
      rcases hhex : hex_to_rgb c with _ | v <;>
        simp [collectColoursWeights, hc, h3, hw, hhex]
    · have ihr := ih hmem
      rcases hc0 : r0.colour with _ | c0 <;> rcases hp0 : r0.prominence with _ | p0
      · simp [collectColoursWeights, hc0, hp0, ihr]
      · simp [collectColoursWeights, hc0, hp0, ihr]
      · simp [collectColoursWeights, hc0, hp0, ihr]
      · rcases hhex0 : hex_to_rgb c0 with _ | v0 <;>
          rcases hw0 : prominence_weights p0 with _ | w0 <;>
          simp [collectColoursWeights, hc0, hp0, hhex0, hw0, ihr]

/-!  ## Claims C6 and C9: the blender's None result and hard errors  -/

/-- C6 (confirmed): `blend_colors_with_prominence` returns `None`
exactly when the group is empty, or the total collected weight is
zero, or no record in the group has both a non-missing colour and a
non-missing prominence; it returns `None` — never some default colour
— in those cases. -/
theorem C6_blend_none_iff (g : List TreeRow) :
    blend_colors_with_prominence g = some none ↔
      g = [] ∨
      (∃ cws, collectColoursWeights g = some cws ∧
        (cws.map (fun cw => cw.2)).sum = 0) ∨
      (∀ r ∈ g, r.colour = none ∨ r.prominence = none) := by
  rw [blend_eq_some_none_iff, collect_eq_nil_iff]
  constructor
  · intro h
    exact Or.inr (Or.inr h)
  · rintro (rfl | ⟨cws, hcol, hsum⟩ | h)
    · simp
    · have hnil : cws = [] := by
        rcases cws with _ | ⟨cw0, cws2⟩
        · rfl
        · have := collect_weights_pos g _ hcol cw0 (List.mem_cons_self _ _)
          simp only [List.map_cons, List.sum_cons] at hsum
          omega
      subst hnil
      exact (collect_eq_nil_iff g).mp hcol
    · exact h

/-- C9 (confirmed): a record with a non-missing colour and a
non-missing prominence outside `{low, med, high}` makes the blend of
its group raise a hard error (the Python `KeyError` from the weight
dict, which the spec names `UnrecognizedProminenceError`) instead of
silently using a default weight. -/
theorem C9_unrecognized_prominence (g : List TreeRow) (row : TreeRow)
    (p : List Char) (h1 : row ∈ g) (h2 : row.colour ≠ none)
    (h3 : row.prominence = some p) (h4 : p ≠ "low".toList)
    (h5 : p ≠ "med".toList) (h6 : p ≠ "high".toList) :
    blend_colors_with_prominence g = none := by
  have hw : prominence_weights p = none := by
    unfold prominence_weights
    rw [if_neg h4, if_neg h5, if_neg h6]
  have hcol := collect_crash g row p h1 h2 h3 hw
  unfold blend_colors_with_prominence
  rw [hcol]

/-- C9 witness: blending a one-record group whose prominence is the
unrecognized category `"mid"` raises. -/
theorem C9_witness :
    ((⟨"A".toList, some ("#ff0000".toList), some ("mid".toList), 0, []⟩ : TreeRow) ∈
      [(⟨"A".toList, some ("#ff0000".toList), some ("mid".toList), 0, []⟩ : TreeRow)]) ∧
    blend_colors_with_prominence
      [(⟨"A".toList, some ("#ff0000".toList), some ("mid".toList), 0, []⟩ : TreeRow)]
      = none :=
  ⟨by decide,
    C9_unrecognized_prominence
      [(⟨"A".toList, some ("#ff0000".toList), some ("mid".toList), 0, []⟩ : TreeRow)]
      (⟨"A".toList, some ("#ff0000".toList), some ("mid".toList), 0, []⟩ : TreeRow)
      ("mid".toList) (by decide) (by decide)
      (by decide) (by decide) (by decide) (by decide)⟩

theorem validRowB_facts (r : TreeRow) (h : validRowB r = true) :
    contributing r = true ∧ rowOkB r = true ∧ 1 ≤ rowWeight r := by
  rcases hc : r.colour with _ | c
  · simp [validRowB, hc] at h
  · rcases hp : r.prominence with _ | p
    · simp [validRowB, hc, hp] at h
    · simp [validRowB, hc, hp] at h
      obtain ⟨hhex, hw⟩ := h
      refine ⟨by simp [contributing, hc, hp], by simp [rowOkB, hc, hp, hhex, hw], ?_⟩
      rw [Option.isSome_iff_exists] at hw
      obtain ⟨w, hw⟩ := hw
      have hb := prominence_weights_bounds p w hw
      simp [rowWeight, hp, hw]
      omega

/-!  ## Claim C3: the weighted mean blend  -/

/-- C3 (confirmed): on a non-empty group of records with valid colours
and prominences, the blender returns, per channel, the weighted
arithmetic mean `Σ (value · weight) / Σ weight` truncated (floored) to
an integer before hex re-encoding, with the fixed weights low = 1,
med = 2, high = 3; in particular blending `#ff0000` at high prominence
with `#0000ff` at low prominence yields `"#bf003f"` in either input
order. -/
theorem C3_weighted_blend (g : List TreeRow)
    (h1 : g ≠ []) (h2 : ∀ r ∈ g, validRowB r = true) :
    (∃ R G B : Nat,
      blend_colors_with_prominence g = some (some (rgb_to_hex (R, G, B))) ∧
      ((R : Int) =
        ⌊(g.map (fun r => ((rowRGB r).1 : ℚ) * (rowWeight r : ℚ))).sum /
          (g.map (fun r => (rowWeight r : ℚ))).sum⌋) ∧
      ((G : Int) =
        ⌊(g.map (fun r => ((rowRGB r).2.1 : ℚ) * (rowWeight r : ℚ))).sum /
          (g.map (fun r => (rowWeight r : ℚ))).sum⌋) ∧
      ((B : Int) =
        ⌊(g.map (fun r => ((rowRGB r).2.2 : ℚ) * (rowWeight r : ℚ))).sum /
          (g.map (fun r => (rowWeight r : ℚ))).sum⌋)) ∧
    prominence_weights ("low".toList) = some 1 ∧
    prominence_weights ("med".toList) = some 2 ∧
    prominence_weights ("high".toList) = some 3 ∧
    blend_colors_with_prominence
      [⟨"A".toList, some ("#ff0000".toList), some ("high".toList), 0, []⟩,
       ⟨"B".toList, some ("#0000ff".toList), some ("low".toList), 0, []⟩]
      = some (some ("#bf003f".toList)) ∧
    blend_colors_with_prominence
      [⟨"B".toList, some ("#0000ff".toList), some ("low".toList), 0, []⟩,
       ⟨"A".toList, some ("#ff0000".toList), some ("high".toList), 0, []⟩]
      = some (some ("#bf003f".toList)) := by
  have hfe : g.filter contributing = g :=
    List.filter_eq_self.mpr (fun r hr => (validRowB_facts r (h2 r hr)).1)
  have hok : ∀ r ∈ g, rowOkB r = true := fun r hr => (validRowB_facts r (h2 r hr)).2.1
  have hblend := blend_wf_some g hok (by rw [hfe]; exact h1)
  rw [hfe] at hblend
  have hWpos : 0 < ((g.map rowData).map (fun cw => cw.2)).sum := by
    rcases g with _ | ⟨r0, g2⟩
    · exact absurd rfl h1
    · have hwr := (validRowB_facts r0 (h2 r0 (List.mem_cons_self _ _))).2.2
      have hr0 : (rowData r0).2 = rowWeight r0 := rfl
      simp only [List.map_cons, List.sum_cons]
      omega
  have hden : (((((g.map rowData).map (fun cw => cw.2)).sum : Nat)) : ℚ) =
      (g.map (fun r => (rowWeight r : ℚ))).sum := by
    rw [List.map_map, sum_map_natCast]
    simp [Function.comp, rowData]
  refine ⟨⟨_, _, _, hblend, ?_, ?_, ?_⟩, by decide, by decide, by decide,
    by decide, by decide⟩
  · rw [natDiv_eq_floor _ _ hWpos, hden]
    congr 1
    rw [List.map_map, sum_map_natCast]
    simp [Function.comp, rowData]
  · rw [natDiv_eq_floor _ _ hWpos, hden]
    congr 1
    rw [List.map_map, sum_map_natCast]
    simp [Function.comp, rowData]
  · rw [natDiv_eq_floor _ _ hWpos, hden]
    congr 1
    rw [List.map_map, sum_map_natCast]
    simp [Function.comp, rowData]

/-- C3 witness: the theorem applied to the concrete red-high /
blue-low group. -/
theorem C3_witness :
    (([⟨"A".toList, some ("#ff0000".toList), some ("high".toList), 0, []⟩,
       ⟨"B".toList, some ("#0000ff".toList), some ("low".toList), 0, []⟩] :
        List TreeRow) ≠ []) ∧
    (∀ r ∈ ([⟨"A".toList, some ("#ff0000".toList), some ("high".toList), 0, []⟩,
       ⟨"B".toList, some ("#0000ff".toList), some ("low".toList), 0, []⟩] :
        List TreeRow), validRowB r = true) ∧
    (∃ R G B : Nat,
      blend_colors_with_prominence
        [⟨"A".toList, some ("#ff0000".toList), some ("high".toList), 0, []⟩,
         ⟨"B".toList, some ("#0000ff".toList), some ("low".toList), 0, []⟩]
        = some (some (rgb_to_hex (R, G, B))) ∧
      ((R : Int) =
        ⌊(([⟨"A".toList, some ("#ff0000".toList), some ("high".toList), 0, []⟩,
            ⟨"B".toList, some ("#0000ff".toList), some ("low".toList), 0, []⟩] :
            List TreeRow).map
            (fun r => ((rowRGB r).1 : ℚ) * (rowWeight r : ℚ))).sum /
          (([⟨"A".toList, some ("#ff0000".toList), some ("high".toList), 0, []⟩,
            ⟨"B".toList, some ("#0000ff".toList), some ("low".toList), 0, []⟩] :
            List TreeRow).map (fun r => (rowWeight r : ℚ))).sum⌋) ∧
      ((G : Int) =
        ⌊(([⟨"A".toList, some ("#ff0000".toList), some ("high".toList), 0, []⟩,
            ⟨"B".toList, some ("#0000ff".toList), some ("low".toList), 0, []⟩] :
            List TreeRow).map
            (fun r => ((rowRGB r).2.1 : ℚ) * (rowWeight r : ℚ))).sum /
          (([⟨"A".toList, some ("#ff0000".toList), some ("high".toList), 0, []⟩,
            ⟨"B".toList, some ("#0000ff".toList), some ("low".toList), 0, []⟩] :
            List TreeRow).map (fun r => (rowWeight r : ℚ))).sum⌋) ∧
      ((B : Int) =
        ⌊(([⟨"A".toList, some ("#ff0000".toList), some ("high".toList), 0, []⟩,
            ⟨"B".toList, some ("#0000ff".toList), some ("low".toList), 0, []⟩] :
            List TreeRow).map
            (fun r => ((rowRGB r).2.2 : ℚ) * (rowWeight r : ℚ))).sum /
          (([⟨"A".toList, some ("#ff0000".toList), some ("high".toList), 0, []⟩,
            ⟨"B".toList, some ("#0000ff".toList), some ("low".toList), 0, []⟩] :
            List TreeRow).map (fun r => (rowWeight r : ℚ))).sum⌋)) :=
  ⟨by decide, by decide,
    (C3_weighted_blend
      [⟨"A".toList, some ("#ff0000".toList), some ("high".toList), 0, []⟩,
       ⟨"B".toList, some ("#0000ff".toList), some ("low".toList), 0, []⟩]
      (by decide) (by decide)).1⟩

/-!  ## Lemmas about hex encoding and decoding  -/

theorem hexDigit_le (c : Char) (v : Nat) (h : hexDigit c = some v) : v ≤ 15 := by
  unfold hexDigit at h
  split at h
  · injection h with h2; omega
  · split at h
    · injection h with h2; omega
    · split at h
      · injection h with h2; omega
      · exact absurd h (by simp)

theorem hexDigit_ne_hash (c : Char) (v : Nat) (h : hexDigit c = some v) :
    ¬(c = '#') := by
  intro hc
  subst hc
  rw [show hexDigit '#' = none from by decide] at h
  exact absurd h (by simp)

theorem hexDigits_pair (c1 c2 : Char) (v1 v2 : Nat)
    (h1 : hexDigit c1 = some v1) (h2 : hexDigit c2 = some v2) :
    hexDigits [c1, c2] = some (16 * v1 + v2) := by
  simp [hexDigits, hexDigitsAux, h1, h2]
  omega

theorem hex_to_rgb_wellFormed (s : List Char) (h : wellFormedColourB s = true) :
    ∃ v1 v2 v3, hex_to_rgb s = some (v1, v2, v3) ∧
      v1 ≤ 255 ∧ v2 ≤ 255 ∧ v3 ≤ 255 := by
  rcases s with _ | ⟨c0, t⟩
  · simp [wellFormedColourB] at h
  simp only [wellFormedColourB, Bool.and_eq_true, beq_iff_eq,
    List.all_eq_true] at h
  obtain ⟨⟨hc0, hlen⟩, hall⟩ := h
  subst hc0
  rcases t with _ | ⟨c1, t⟩
  · simp at hlen
  rcases t with _ | ⟨c2, t⟩
  · simp at hlen
  rcases t with _ | ⟨c3, t⟩
  · simp at hlen
  rcases t with _ | ⟨c4, t⟩
  · simp at hlen
  rcases t with _ | ⟨c5, t⟩
  · simp at hlen
  rcases t with _ | ⟨c6, t⟩
  · simp at hlen
  rcases t with _ | ⟨c7, t⟩
  · obtain ⟨w1, hv1⟩ := Option.isSome_iff_exists.mp (hall c1 (by simp))
    obtain ⟨w2, hv2⟩ := Option.isSome_iff_exists.mp (hall c2 (by simp))
    obtain ⟨w3, hv3⟩ := Option.isSome_iff_exists.mp (hall c3 (by simp))
    obtain ⟨w4, hv4⟩ := Option.isSome_iff_exists.mp (hall c4 (by simp))
    obtain ⟨w5, hv5⟩ := Option.isSome_iff_exists.mp (hall c5 (by simp))
    obtain ⟨w6, hv6⟩ := Option.isSome_iff_exists.mp (hall c6 (by simp))
    refine ⟨16 * w1 + w2, 16 * w3 + w4, 16 * w5 + w6, ?_, ?_, ?_, ?_⟩
    · have hne1 : ¬(c1 = '#') := hexDigit_ne_hash c1 w1 hv1
      simp [hex_to_rgb, List.dropWhile, hne1,
        hexDigits_pair c1 c2 w1 w2 hv1 hv2,
        hexDigits_pair c3 c4 w3 w4 hv3 hv4,
        hexDigits_pair c5 c6 w5 w6 hv5 hv6]
    · have := hexDigit_le c1 w1 hv1
      have := hexDigit_le c2 w2 hv2
      omega
    · have := hexDigit_le c3 w3 hv3
      have := hexDigit_le c4 w4 hv4
      omega
    · have := hexDigit_le c5 w5 hv5
      have := hexDigit_le c6 w6 hv6
      omega
  · simp at hlen

theorem natToHexAux_nil (fuel : Nat) : natToHexAux fuel 0 = [] := by
  cases fuel <;> simp [natToHexAux]

theorem natToHexAux_small (fuel n : Nat) (h1 : 1 ≤ n) (h2 : n < 16)
    (h3 : n ≤ fuel) : natToHexAux fuel n = [hexChar n] := by
  cases fuel with
  | zero => omega
  | succ f =>
    unfold natToHexAux
    rw [if_neg (by omega), Nat.div_eq_of_lt h2, natToHexAux_nil,
      Nat.mod_eq_of_lt h2]
    rfl

theorem natToHex_two (n : Nat) (h16 : 16 ≤ n) (h256 : n < 256) :
    natToHex n = [hexChar (n / 16), hexChar (n % 16)] := by
  unfold natToHex
  rw [if_neg (by omega)]
  cases n with
  | zero => omega
  | succ m =>
    unfold natToHexAux
    rw [if_neg (by omega)]
    rw [natToHexAux_small m ((m + 1) / 16) (by omega) (by omega) (by omega)]
    rfl

theorem format02x_two (n : Nat) (h : n < 256) :
    format02x n = [hexChar (n / 16), hexChar (n % 16)] := by
  rcases Nat.lt_or_ge n 16 with h16 | h16
  · rcases Nat.eq_zero_or_pos n with rfl | hpos
    · decide
    · have hx : natToHex n = [hexChar n] := by
        unfold natToHex
        rw [if_neg (by omega)]
        exact natToHexAux_small n n hpos h16 le_rfl
      unfold format02x
      rw [hx, if_pos (by simp), Nat.div_eq_of_lt h16, Nat.mod_eq_of_lt h16,
        show hexChar 0 = '0' from by decide]
  · have hx := natToHex_two n h16 h
    unfold format02x
    rw [hx, if_neg (by simp)]

theorem hexChar_spec (d : Nat) (h : d < 16) :
    hexDigit (hexChar d) = some d ∧ lowerHexDigitB (hexChar d) = true := by
  interval_cases d <;> exact ⟨by decide, by decide⟩

theorem rgb_to_hex_struct (R G B : Nat) (hR : R < 256) (hG : G < 256)
    (hB : B < 256) :
    rgb_to_hex (R, G, B) =
      '#' :: [hexChar (R / 16), hexChar (R % 16), hexChar (G / 16),
        hexChar (G % 16), hexChar (B / 16), hexChar (B % 16)] := by
  unfold rgb_to_hex
  rw [format02x_two R hR, format02x_two G hG, format02x_two B hB]
  rfl

theorem hex_to_rgb_roundtrip (R G B : Nat) (hR : R < 256) (hG : G < 256)
    (hB : B < 256) :
    hex_to_rgb (rgb_to_hex (R, G, B)) = some (R, G, B) := by
  rw [rgb_to_hex_struct R G B hR hG hB]
  have hne : ¬(hexChar (R / 16) = '#') :=
    hexDigit_ne_hash _ _ (hexChar_spec (R / 16) (by omega)).1
  have hp1 := hexDigits_pair _ _ _ _ (hexChar_spec (R / 16) (by omega)).1
    (hexChar_spec (R % 16) (by omega)).1
  have hp2 := hexDigits_pair _ _ _ _ (hexChar_spec (G / 16) (by omega)).1
    (hexChar_spec (G % 16) (by omega)).1
  have hp3 := hexDigits_pair _ _ _ _ (hexChar_spec (B / 16) (by omega)).1
    (hexChar_spec (B % 16) (by omega)).1
  simp [hex_to_rgb, List.dropWhile, hne, hp1, hp2, hp3]
  refine ⟨by omega, by omega, by omega⟩

/-!  ## Bounds on the weighted-mean channels  -/

theorem sum_mul_le (l : List ((Nat × Nat × Nat) × Nat))
    (proj : (Nat × Nat × Nat) → Nat) (M : Nat)
    (h : ∀ cw ∈ l, proj cw.1 ≤ M) :
    (l.map (fun cw => proj cw.1 * cw.2)).sum ≤
      M * (l.map (fun cw => cw.2)).sum := by
  induction l with
  | nil => simp
  | cons cw l ih =>
    simp only [List.map_cons, List.sum_cons, Nat.mul_add]
    have h1 : proj cw.1 * cw.2 ≤ M * cw.2 :=
      Nat.mul_le_mul_right _ (h cw (List.mem_cons_self _ _))
    have h2 := ih (fun x hx => h x (List.mem_cons_of_mem _ hx))
    omega

theorem le_sum_mul (l : List ((Nat × Nat × Nat) × Nat))
    (proj : (Nat × Nat × Nat) → Nat) (m : Nat)
    (h : ∀ cw ∈ l, m ≤ proj cw.1) :
    m * (l.map (fun cw => cw.2)).sum ≤
      (l.map (fun cw => proj cw.1 * cw.2)).sum := by
  induction l with
  | nil => simp
  | cons cw l ih =>
    simp only [List.map_cons, List.sum_cons, Nat.mul_add]
    have h1 : m * cw.2 ≤ proj cw.1 * cw.2 :=
      Nat.mul_le_mul_right _ (h cw (List.mem_cons_self _ _))
    have h2 := ih (fun x hx => h x (List.mem_cons_of_mem _ hx))
    omega

theorem div_channel_bounds (l : List ((Nat × Nat × Nat) × Nat))
    (proj : (Nat × Nat × Nat) → Nat) (m M : Nat) (hne : l ≠ [])
    (hw : ∀ cw ∈ l, 1 ≤ cw.2)
    (hlo : ∀ cw ∈ l, m ≤ proj cw.1) (hhi : ∀ cw ∈ l, proj cw.1 ≤ M) :
    m ≤ (l.map (fun cw => proj cw.1 * cw.2)).sum /
        (l.map (fun cw => cw.2)).sum ∧
    (l.map (fun cw => proj cw.1 * cw.2)).sum /
        (l.map (fun cw => cw.2)).sum ≤ M := by
  have hW : 0 < (l.map (fun cw => cw.2)).sum := by
    rcases l with _ | ⟨cw0, l2⟩
    · exact absurd rfl hne
    · have h1 := hw cw0 (List.mem_cons_self _ _)
      simp only [List.map_cons, List.sum_cons]
      omega
  constructor
  · rw [Nat.le_div_iff_mul_le hW]
    exact le_sum_mul l proj m hlo
  · calc (l.map (fun cw => proj cw.1 * cw.2)).sum / (l.map (fun cw => cw.2)).sum
        ≤ M * (l.map (fun cw => cw.2)).sum / (l.map (fun cw => cw.2)).sum :=
          Nat.div_le_div_right (sum_mul_le l proj M hhi)
      _ = M := Nat.mul_div_cancel M hW

theorem rowWellFormedB_ok (r : TreeRow) (h : rowWellFormedB r = true) :
    rowOkB r = true := by
  rcases hc : r.colour with _ | c <;> rcases hp : r.prominence with _ | p <;>
    simp [rowOkB, hc, hp] <;> unfold rowWellFormedB at h <;> rw [hc, hp] at h <;>
    simp at h
  · obtain ⟨hwf, hws⟩ := h
    obtain ⟨v1, v2, v3, hrgb, _⟩ := hex_to_rgb_wellFormed c hwf
    exact ⟨by simp [hrgb], hws⟩

theorem rowWellFormedB_channels (r : TreeRow) (h : rowWellFormedB r = true)
    (hc2 : contributing r = true) :
    (rowRGB r).1 ≤ 255 ∧ (rowRGB r).2.1 ≤ 255 ∧ (rowRGB r).2.2 ≤ 255 ∧
      1 ≤ rowWeight r := by
  unfold contributing at hc2
  simp only [Bool.and_eq_true, Option.isSome_iff_exists] at hc2
  obtain ⟨⟨c, hc⟩, p, hp⟩ := hc2
  unfold rowWellFormedB at h
  rw [hc, hp] at h
  simp only [Bool.and_eq_true] at h
  obtain ⟨hwf, hws⟩ := h
  obtain ⟨v1, v2, v3, hrgb, hb1, hb2, hb3⟩ := hex_to_rgb_wellFormed c hwf
  rw [Option.isSome_iff_exists] at hws
  obtain ⟨w, hw⟩ := hws
  have hwb := prominence_weights_bounds p w hw
  unfold rowRGB rowWeight
  rw [hc, hp]
  simp [hrgb, hw]
  exact ⟨hb1, hb2, hb3, by omega⟩

theorem blend_wf_output (g : List TreeRow) (out : List Char)
    (hwf : ∀ r ∈ g, rowWellFormedB r = true)
    (hb : blend_colors_with_prominence g = some (some out)) :
    (∃ t, out = '#' :: t ∧ t.length = 6 ∧ ∀ c ∈ t, lowerHexDigitB c = true) ∧
    ∃ R G B : Nat, hex_to_rgb out = some (R, G, B) ∧
      R ≤ 255 ∧ G ≤ 255 ∧ B ≤ 255 ∧
      (∀ m M : Nat, (∀ r ∈ g, contributing r = true →
        m ≤ (rowRGB r).1 ∧ (rowRGB r).1 ≤ M) → m ≤ R ∧ R ≤ M) ∧
      (∀ m M : Nat, (∀ r ∈ g, contributing r = true →
        m ≤ (rowRGB r).2.1 ∧ (rowRGB r).2.1 ≤ M) → m ≤ G ∧ G ≤ M) ∧
      (∀ m M : Nat, (∀ r ∈ g, contributing r = true →
        m ≤ (rowRGB r).2.2 ∧ (rowRGB r).2.2 ≤ M) → m ≤ B ∧ B ≤ M) := by
  have hok : ∀ r ∈ g, rowOkB r = true := fun r hr => rowWellFormedB_ok r (hwf r hr)
  have hcne : g.filter contributing ≠ [] := by
    intro hfe
    have hnone : blend_colors_with_prominence g = some none := by
      rw [blend_eq_some_none_iff]
      rw [collect_wf g hok, hfe]
      rfl
    rw [hnone] at hb
    exact absurd hb (by simp)
  have hblend := blend_wf_some g hok hcne
  rw [hb] at hblend
  injection hblend with hblend2
  injection hblend2 with hblend3
  -- facts about the collected list
  have hmem : ∀ cw ∈ (g.filter contributing).map rowData,
      ∃ r ∈ g, contributing r = true ∧ cw = rowData r := by
    intro cw hcw
    rw [List.mem_map] at hcw
    obtain ⟨r, hr, hcw2⟩ := hcw
    rw [List.mem_filter] at hr
    exact ⟨r, hr.1, hr.2, hcw2.symm⟩
  have hwpos : ∀ cw ∈ (g.filter contributing).map rowData, 1 ≤ cw.2 := by
    intro cw hcw
    obtain ⟨r, hr, hcr, rfl⟩ := hmem cw hcw
    exact (rowWellFormedB_channels r (hwf r hr) hcr).2.2.2
  have hnil : (g.filter contributing).map rowData ≠ [] := by simpa using hcne
  have hboundsR : (((g.filter contributing).map rowData).map
        (fun cw => cw.1.1 * cw.2)).sum /
      (((g.filter contributing).map rowData).map (fun cw => cw.2)).sum ≤ 255 :=
    (div_channel_bounds ((g.filter contributing).map rowData)
      (fun v => v.1) 0 255 hnil hwpos (by simp)
      (by
        intro cw hcw
        obtain ⟨r, hr, hcr, rfl⟩ := hmem cw hcw
        exact (rowWellFormedB_channels r (hwf r hr) hcr).1)).2
  have hboundsG : (((g.filter contributing).map rowData).map
        (fun cw => cw.1.2.1 * cw.2)).sum /
      (((g.filter contributing).map rowData).map (fun cw => cw.2)).sum ≤ 255 :=
    (div_channel_bounds ((g.filter contributing).map rowData)
      (fun v => v.2.1) 0 255 hnil hwpos (by simp)
      (by
        intro cw hcw
        obtain ⟨r, hr, hcr, rfl⟩ := hmem cw hcw
        exact (rowWellFormedB_channels r (hwf r hr) hcr).2.1)).2
  have hboundsB : (((g.filter contributing).map rowData).map
        (fun cw => cw.1.2.2 * cw.2)).sum /
      (((g.filter contributing).map rowData).map (fun cw => cw.2)).sum ≤ 255 :=
    (div_channel_bounds ((g.filter contributing).map rowData)
      (fun v => v.2.2) 0 255 hnil hwpos (by simp)
      (by
        intro cw hcw
        obtain ⟨r, hr, hcr, rfl⟩ := hmem cw hcw
        exact (rowWellFormedB_channels r (hwf r hr) hcr).2.2.1)).2
  constructor
  · rw [hblend3, rgb_to_hex_struct _ _ _ (by omega) (by omega) (by omega)]
    refine ⟨_, rfl, rfl, ?_⟩
    intro c hcmem
    simp only [List.mem_cons, List.not_mem_nil, or_false] at hcmem
    rcases hcmem with rfl | rfl | rfl | rfl | rfl | rfl <;>
      exact (hexChar_spec _ (by omega)).2
  · refine ⟨_, _, _, by
      rw [hblend3]
      exact hex_to_rgb_roundtrip _ _ _ (by omega) (by omega) (by omega),
      hboundsR, hboundsG, hboundsB, ?_, ?_, ?_⟩
    · intro m M hmM
      refine (div_channel_bounds ((g.filter contributing).map rowData)
        (fun v => v.1) m M hnil hwpos ?_ ?_)
      · intro cw hcw
        obtain ⟨r, hr, hcr, rfl⟩ := hmem cw hcw
        exact (hmM r hr hcr).1
      · intro cw hcw
        obtain ⟨r, hr, hcr, rfl⟩ := hmem cw hcw
        exact (hmM r hr hcr).2
    · intro m M hmM
      refine (div_channel_bounds ((g.filter contributing).map rowData)
        (fun v => v.2.1) m M hnil hwpos ?_ ?_)
      · intro cw hcw
        obtain ⟨r, hr, hcr, rfl⟩ := hmem cw hcw
        exact (hmM r hr hcr).1
      · intro cw hcw
        obtain ⟨r, hr, hcr, rfl⟩ := hmem cw hcw
        exact (hmM r hr hcr).2
    · intro m M hmM
      refine (div_channel_bounds ((g.filter contributing).map rowData)
        (fun v => v.2.2) m M hnil hwpos ?_ ?_)
      · intro cw hcw
        obtain ⟨r, hr, hcr, rfl⟩ := hmem cw hcw
        exact (hmM r hr hcr).1
      · intro cw hcw
        obtain ⟨r, hr, hcr, rfl⟩ := hmem cw hcw
        exact (hmM r hr hcr).2

/-!  ## Lemmas about grouping and deduplication  -/

theorem pdUniqueAux_mem {α : Type} [DecidableEq α] (l : List α) :
    ∀ (seen : List α) (x : α),
      x ∈ pdUniqueAux l seen ↔ x ∈ l ∧ x ∉ seen := by
  induction l with
  | nil => intro seen x; simp [pdUniqueAux]
  | cons y l ih =>
    intro seen x
    simp only [pdUniqueAux]
    by_cases hy : y ∈ seen
    · rw [if_pos hy, ih]
      constructor
      · rintro ⟨h1, h2⟩
        exact ⟨List.mem_cons_of_mem y h1, h2⟩
      · rintro ⟨h1, h2⟩
        rcases List.mem_cons.mp h1 with rfl | h3
        · exact absurd hy h2
        · exact ⟨h3, h2⟩
    · rw [if_neg hy]
      simp only [List.mem_cons, ih]
      constructor
      · rintro (rfl | ⟨h1, h2⟩)
        · exact ⟨Or.inl rfl, hy⟩
        · exact ⟨Or.inr h1, fun hc => h2 (Or.inr hc)⟩
      · rintro ⟨h1, h2⟩
        rcases h1 with rfl | h1
        · exact Or.inl rfl
        · by_cases hxy : x = y
          · exact Or.inl hxy
          · exact Or.inr ⟨h1, by simp [hxy, h2]⟩

theorem pdUniqueAux_nodup {α : Type} [DecidableEq α] (l : List α) :
    ∀ seen : List α, (pdUniqueAux l seen).Nodup := by
  induction l with
  | nil => intro seen; simp [pdUniqueAux]
  | cons y l ih =>
    intro seen
    simp only [pdUniqueAux]
    split
    · exact ih seen
    · rw [List.nodup_cons]
      refine ⟨?_, ih (y :: seen)⟩
      rw [pdUniqueAux_mem]
      rintro ⟨_, h2⟩
      exact h2 (List.mem_cons_self y seen)

theorem pdUnique_mem {α : Type} [DecidableEq α] (l : List α) (x : α) :
    x ∈ pdUnique l ↔ x ∈ l := by
  unfold pdUnique
  rw [pdUniqueAux_mem]
  simp

theorem count_nodup {α : Type} [BEq α] [LawfulBEq α] (l : List α)
    (hnd : l.Nodup) (x : α) : l.count x = if x ∈ l then 1 else 0 := by
  induction l with
  | nil => simp
  | cons y l ih =>
    rw [List.nodup_cons] at hnd
    obtain ⟨hy, hnd2⟩ := hnd
    rw [List.count_cons, ih hnd2]
    by_cases hx : x = y
    · subst hx
      rw [if_neg hy, if_pos (List.mem_cons_self x l)]
      simp
    · have hyx : (y == x) = false := by
        rw [beq_eq_false_iff_ne]
        exact fun h => hx h.symm
      simp [hyx, List.mem_cons, hx]

theorem pdUnique_count {α : Type} [DecidableEq α] [BEq α] [LawfulBEq α]
    (l : List α) (x : α) :
    (pdUnique l).count x = if x ∈ l then 1 else 0 := by
  rw [count_nodup (pdUnique l) (pdUniqueAux_nodup l []) x]
  by_cases hx : x ∈ l
  · rw [if_pos hx, if_pos ((pdUnique_mem l x).mpr hx)]
  · rw [if_neg hx, if_neg (fun hc => hx ((pdUnique_mem l x).mp hc))]

theorem insertSorted_count (x y : Nat) (l : List Nat) :
    (insertSorted x l).count y = (x :: l).count y := by
  induction l with
  | nil => rfl
  | cons z l ih =>
    simp only [insertSorted]
    split
    · rfl
    · rw [List.count_cons, ih]
      rw [List.count_cons, List.count_cons, List.count_cons]
      omega

theorem sortNat_count (l : List Nat) (y : Nat) :
    (sortNat l).count y = l.count y := by
  induction l with
  | nil => rfl
  | cons x l ih =>
    simp only [sortNat]
    rw [insertSorted_count, List.count_cons, List.count_cons, ih]

theorem sortNat_mem (l : List Nat) (y : Nat) : y ∈ sortNat l ↔ y ∈ l := by
  constructor
  · intro h
    have := List.count_pos_iff_mem.mpr h
    rw [sortNat_count] at this
    exact List.count_pos_iff_mem.mp this
  · intro h
    have := List.count_pos_iff_mem.mpr h
    rw [← sortNat_count] at this
    exact List.count_pos_iff_mem.mp this

theorem groupbyKeys_count (rs : List TreeRow) (k : Nat) :
    (groupbyKeys rs).count k =
      if ∃ r ∈ rs, r.h3_index = k then 1 else 0 := by
  unfold groupbyKeys
  rw [sortNat_count, pdUnique_count]
  by_cases hx : ∃ r ∈ rs, r.h3_index = k
  · rw [if_pos (List.mem_map.mpr hx), if_pos hx]
  · rw [if_neg (fun hc => hx (List.mem_map.mp hc)), if_neg hx]

theorem groupbyKeys_nodup (rs : List TreeRow) : (groupbyKeys rs).Nodup := by
  rw [List.nodup_iff_count_le_one]
  intro k
  rw [groupbyKeys_count]
  split <;> omega

theorem groupbyKeys_mem (rs : List TreeRow) (k : Nat) :
    k ∈ groupbyKeys rs ↔ ∃ r ∈ rs, r.h3_index = k := by
  rw [← List.count_pos_iff_mem, groupbyKeys_count]
  split <;> rename_i h
  · simpa using h
  · simpa using h

theorem buildAggs_wf (fl : List TreeRow) (keys : List Nat)
    (hok : ∀ r ∈ fl, rowOkB r = true) :
    ∃ aggs, buildAggs fl keys = some aggs ∧
      aggs.map (fun a => a.h3_index) =
        keys.filter (fun k => (fl.filter (inCell k)).any contributing) ∧
      ∀ agg ∈ aggs,
        agg.tree_species =
          pdUnique ((fl.filter (inCell agg.h3_index)).map (fun r => r.TreeName)) ∧
        blend_colors_with_prominence (fl.filter (inCell agg.h3_index)) =
          some (some agg.colour_hex) := by
  induction keys with
  | nil => exact ⟨[], rfl, by simp, by simp⟩
  | cons k ks ih =>
    obtain ⟨aggs, h1, h2, h3⟩ := ih
    have hokg : ∀ r ∈ fl.filter (inCell k), rowOkB r = true :=
      fun r hr => hok r (List.mem_filter.mp hr).1
    by_cases hc : (fl.filter (inCell k)).filter contributing = []
    · have hnone : blend_colors_with_prominence (fl.filter (inCell k)) = some none := by
        rw [blend_eq_some_none_iff, collect_wf _ hokg, hc]
        rfl
      have hany : (fl.filter (inCell k)).any contributing = false := by
        rcases hb : (fl.filter (inCell k)).any contributing with _ | _
        · rfl
        · obtain ⟨r, hr, hcr⟩ := List.any_eq_true.mp hb
          have : r ∈ (fl.filter (inCell k)).filter contributing :=
            List.mem_filter.mpr ⟨hr, hcr⟩
          rw [hc] at this
          exact absurd this (by simp)
      have hstep : buildAggs fl (k :: ks) = buildAggs fl ks := by
        simp only [buildAggs, hnone]
      refine ⟨aggs, hstep ▸ h1, ?_, h3⟩
      rw [List.filter_cons, hany]
      simpa using h2
    · have hblend := blend_wf_some _ hokg hc
      obtain ⟨out, hblendout, houtne⟩ :
          ∃ out, blend_colors_with_prominence (fl.filter (inCell k)) =
            some (some out) ∧ out ≠ [] :=
        ⟨_, hblend, by simp [rgb_to_hex]⟩
      have hany : (fl.filter (inCell k)).any contributing = true := by
        rcases hmc : (fl.filter (inCell k)).filter contributing with _ | ⟨r0, l0⟩
        · exact absurd hmc hc
        · have : r0 ∈ (fl.filter (inCell k)).filter contributing := by
            rw [hmc]
            exact List.mem_cons_self _ _
          rw [List.mem_filter] at this
          exact List.any_eq_true.mpr ⟨r0, this.1, this.2⟩
      refine ⟨⟨k, out, pdUnique ((fl.filter (inCell k)).map (fun r => r.TreeName))⟩ :: aggs,
        ?_, ?_, ?_⟩
      · simp [buildAggs, hblendout, houtne, h1]
      · simp only [List.map_cons, List.filter_cons, hany]
        rw [h2]
        simp
      · intro agg hagg
        rcases List.mem_cons.mp hagg with rfl | hagg2
        · exact ⟨rfl, hblendout⟩
        · exact h3 agg hagg2

/-!  ## Claims C7 and C2: the month aggregation loop  -/

/-- C7 (confirmed): for each month, aggregation (on data the blender
cannot raise on) produces exactly one CellAggregate per cell id having
at least one flowering record whose colour and prominence are both
present for that month; cells whose blend is absent are dropped
silently, and a month with no flowering records yields the empty
result without an error. -/
theorem C7_month_aggregation (rs : List TreeRow) (m : Nat)
    (hok : ∀ r ∈ rs, rowOkB r = true) :
    ∃ aggs, aggregateMonth rs m = some aggs ∧
      (∀ k : Nat, (aggs.map (fun a => a.h3_index)).count k =
        if ∃ r ∈ rs, flowersInMonth r m = true ∧ r.h3_index = k ∧
            contributing r = true then 1 else 0) ∧
      (rs.filter (fun r => flowersInMonth r m) = [] → aggs = []) := by
  have hokfl : ∀ r ∈ rs.filter (fun r => flowersInMonth r m), rowOkB r = true :=
    fun r hr => hok r (List.mem_filter.mp hr).1
  obtain ⟨aggs, h1, h2, h3⟩ :=
    buildAggs_wf (rs.filter (fun r => flowersInMonth r m))
      (groupbyKeys (rs.filter (fun r => flowersInMonth r m))) hokfl
  refine ⟨aggs, h1, ?_, ?_⟩
  · intro k
    rw [h2]
    by_cases hq : ∃ r ∈ rs, flowersInMonth r m = true ∧ r.h3_index = k ∧
        contributing r = true
    · rw [if_pos hq]
      obtain ⟨r, hr, hf, hk, hcr⟩ := hq
      have hrfl : r ∈ rs.filter (fun r => flowersInMonth r m) :=
        List.mem_filter.mpr ⟨hr, hf⟩
      have hany : ((rs.filter (fun r => flowersInMonth r m)).filter
          (inCell k)).any contributing = true :=
        List.any_eq_true.mpr
          ⟨r, List.mem_filter.mpr ⟨hrfl, by simp [inCell, hk]⟩, hcr⟩
      have hnd := List.Nodup.filter
        (fun k2 => ((rs.filter (fun r => flowersInMonth r m)).filter
          (inCell k2)).any contributing)
        (groupbyKeys_nodup (rs.filter (fun r => flowersInMonth r m)))
      exact List.count_eq_one_of_mem hnd
        (List.mem_filter.mpr
          ⟨(groupbyKeys_mem (rs.filter (fun r => flowersInMonth r m)) k).mpr
            ⟨r, hrfl, hk⟩, hany⟩)
    · rw [if_neg hq]
      apply List.count_eq_zero_of_not_mem
      intro hmem
      rw [List.mem_filter] at hmem
      obtain ⟨hmem1, hmem2⟩ := hmem
      obtain ⟨r, hr, hcr⟩ := List.any_eq_true.mp hmem2
      rw [List.mem_filter] at hr
      obtain ⟨hr1, hr2⟩ := hr
      rw [List.mem_filter] at hr1
      exact hq ⟨r, hr1.1, hr1.2, by simpa [inCell] using hr2, hcr⟩
  · intro hemp
    have h2b := h2
    rw [hemp] at h2b
    simp only [groupbyKeys, pdUnique, pdUniqueAux, sortNat, List.map_nil,
      List.filter_nil, List.map_eq_nil] at h2b
    exact h2b

/-- C7 witness: the theorem applied to a concrete two-record data set
(one valid record and one missing its colour, sharing cell 7). -/
theorem C7_witness :
    (∀ r ∈ ([⟨"A".toList, some ("#ff0000".toList), some ("high".toList), 7,
        [true, false, false, false, false, false,
         false, false, false, false, false, false]⟩,
      ⟨"B".toList, none, some ("low".toList), 7,
        [true, false, false, false, false, false,
         false, false, false, false, false, false]⟩] : List TreeRow),
      rowOkB r = true) ∧
    (∃ aggs, aggregateMonth
        [⟨"A".toList, some ("#ff0000".toList), some ("high".toList), 7,
          [true, false, false, false, false, false,
           false, false, false, false, false, false]⟩,
         ⟨"B".toList, none, some ("low".toList), 7,
          [true, false, false, false, false, false,
           false, false, false, false, false, false]⟩] 0 = some aggs ∧
      (∀ k : Nat, (aggs.map (fun a => a.h3_index)).count k =
        if ∃ r ∈ ([⟨"A".toList, some ("#ff0000".toList), some ("high".toList), 7,
            [true, false, false, false, false, false,
             false, false, false, false, false, false]⟩,
          ⟨"B".toList, none, some ("low".toList), 7,
            [true, false, false, false, false, false,
             false, false, false, false, false, false]⟩] : List TreeRow),
            flowersInMonth r 0 = true ∧ r.h3_index = k ∧
            contributing r = true then 1 else 0) ∧
      (([⟨"A".toList, some ("#ff0000".toList), some ("high".toList), 7,
          [true, false, false, false, false, false,
           false, false, false, false, false, false]⟩,
         ⟨"B".toList, none, some ("low".toList), 7,
          [true, false, false, false, false, false,
           false, false, false, false, false, false]⟩] : List TreeRow).filter
        (fun r => flowersInMonth r 0) = [] → aggs = [])) :=
  ⟨by decide,
    C7_month_aggregation
      [⟨"A".toList, some ("#ff0000".toList), some ("high".toList), 7,
        [true, false, false, false, false, false,
         false, false, false, false, false, false]⟩,
       ⟨"B".toList, none, some ("low".toList), 7,
        [true, false, false, false, false, false,
         false, false, false, false, false, false]⟩] 0 (by decide)⟩

/-- C2 (corrected): the species list of an emitted CellAggregate is the
first-occurrence deduplicated list of the species names of **all**
records of the cell's group for that month — each species with at
least one record in the group appears exactly once, *including*
species all of whose records were excluded from the blend. -/
theorem C2_species_list (rs : List TreeRow) (m : Nat) (aggs : List CellAgg)
    (agg : CellAgg) (name : List Char)
    (hok : ∀ r ∈ rs, rowOkB r = true)
    (h1 : aggregateMonth rs m = some aggs) (h2 : agg ∈ aggs) :
    agg.tree_species =
      pdUnique (((rs.filter (fun r => flowersInMonth r m)).filter
        (inCell agg.h3_index)).map (fun r => r.TreeName)) ∧
    agg.tree_species.count name =
      (if ∃ r ∈ rs, flowersInMonth r m = true ∧
        r.h3_index = agg.h3_index ∧ r.TreeName = name then 1 else 0) := by
  have hokfl : ∀ r ∈ rs.filter (fun r => flowersInMonth r m), rowOkB r = true :=
    fun r hr => hok r (List.mem_filter.mp hr).1
  obtain ⟨aggs2, hb1, hb2, hb3⟩ :=
    buildAggs_wf (rs.filter (fun r => flowersInMonth r m))
      (groupbyKeys (rs.filter (fun r => flowersInMonth r m))) hokfl
  have h1b : buildAggs (rs.filter (fun r => flowersInMonth r m))
      (groupbyKeys (rs.filter (fun r => flowersInMonth r m))) = some aggs := h1
  rw [h1b] at hb1
  injection hb1 with hb1
  subst hb1
  obtain ⟨hspec, _⟩ := hb3 agg h2
  refine ⟨hspec, ?_⟩
  rw [hspec, pdUnique_count]
  by_cases hq : ∃ r ∈ rs, flowersInMonth r m = true ∧
      r.h3_index = agg.h3_index ∧ r.TreeName = name
  · obtain ⟨r, hr, hf, hk, hname⟩ := hq
    rw [if_pos (List.mem_map.mpr
      ⟨r, List.mem_filter.mpr ⟨List.mem_filter.mpr ⟨hr, hf⟩, by simp [inCell, hk]⟩,
        hname⟩)]
    rw [if_pos ⟨r, hr, hf, hk, hname⟩]
  · rw [if_neg ?_, if_neg hq]
    intro hmem
    obtain ⟨r, hr, hname⟩ := List.mem_map.mp hmem
    rw [List.mem_filter] at hr
    obtain ⟨hr1, hr2⟩ := hr
    rw [List.mem_filter] at hr1
    exact hq ⟨r, hr1.1, hr1.2, by simpa [inCell] using hr2, hname⟩

/-- C2 counterexample: the claim says a species whose records were all
excluded from the blend never appears in the species list, but the
source takes `group["TreeName"].unique()` over **all** rows of the
group: species `"B"`'s only record has a missing colour (so it
contributes nothing to the blend), yet `"B"` appears in the emitted
species list. -/
theorem C2_counterexample :
    aggregateMonth
      [⟨"A".toList, some ("#ff0000".toList), some ("high".toList), 7,
        [true, false, false, false, false, false,
         false, false, false, false, false, false]⟩,
       ⟨"B".toList, none, some ("low".toList), 7,
        [true, false, false, false, false, false,
         false, false, false, false, false, false]⟩] 0
      = some [⟨7, "#ff0000".toList, ["A".toList, "B".toList]⟩] ∧
    (∀ r ∈ ([⟨"A".toList, some ("#ff0000".toList), some ("high".toList), 7,
        [true, false, false, false, false, false,
         false, false, false, false, false, false]⟩,
      ⟨"B".toList, none, some ("low".toList), 7,
        [true, false, false, false, false, false,
         false, false, false, false, false, false]⟩] : List TreeRow),
      r.TreeName = "B".toList → r.colour = none) ∧
    (["A".toList, "B".toList].count ("B".toList) = 1) := by decide

/-- C2 witness: the (amended) theorem applied to the concrete
two-record cell. -/
theorem C2_witness :
    (∀ r ∈ ([⟨"A".toList, some ("#ff0000".toList), some ("high".toList), 7,
        [true, false, false, false, false, false,
         false, false, false, false, false, false]⟩,
      ⟨"B".toList, none, some ("low".toList), 7,
        [true, false, false, false, false, false,
         false, false, false, false, false, false]⟩] : List TreeRow),
      rowOkB r = true) ∧
    aggregateMonth
      [⟨"A".toList, some ("#ff0000".toList), some ("high".toList), 7,
        [true, false, false, false, false, false,
         false, false, false, false, false, false]⟩,
       ⟨"B".toList, none, some ("low".toList), 7,
        [true, false, false, false, false, false,
         false, false, false, false, false, false]⟩] 0
      = some [⟨7, "#ff0000".toList, ["A".toList, "B".toList]⟩] ∧
    (⟨7, "#ff0000".toList, ["A".toList, "B".toList]⟩ : CellAgg) ∈
      [(⟨7, "#ff0000".toList, ["A".toList, "B".toList]⟩ : CellAgg)] ∧
    ((⟨7, "#ff0000".toList, ["A".toList, "B".toList]⟩ : CellAgg).tree_species =
      pdUnique (((([⟨"A".toList, some ("#ff0000".toList), some ("high".toList), 7,
          [true, false, false, false, false, false,
           false, false, false, false, false, false]⟩,
        ⟨"B".toList, none, some ("low".toList), 7,
          [true, false, false, false, false, false,
           false, false, false, false, false, false]⟩] : List TreeRow).filter
          (fun r => flowersInMonth r 0)).filter
        (inCell (⟨7, "#ff0000".toList, ["A".toList, "B".toList]⟩ : CellAgg).h3_index)).map
        (fun r => r.TreeName)) ∧
    (⟨7, "#ff0000".toList, ["A".toList, "B".toList]⟩ : CellAgg).tree_species.count
        ("B".toList) =
      (if ∃ r ∈ ([⟨"A".toList, some ("#ff0000".toList), some ("high".toList), 7,
          [true, false, false, false, false, false,
           false, false, false, false, false, false]⟩,
        ⟨"B".toList, none, some ("low".toList), 7,
          [true, false, false, false, false, false,
           false, false, false, false, false, false]⟩] : List TreeRow),
        flowersInMonth r 0 = true ∧
        r.h3_index = (⟨7, "#ff0000".toList, ["A".toList, "B".toList]⟩ : CellAgg).h3_index ∧
        r.TreeName = "B".toList then 1 else 0)) :=
  ⟨by decide, by decide, by decide,
    C2_species_list
      [⟨"A".toList, some ("#ff0000".toList), some ("high".toList), 7,
        [true, false, false, false, false, false,
         false, false, false, false, false, false]⟩,
       ⟨"B".toList, none, some ("low".toList), 7,
        [true, false, false, false, false, false,
         false, false, false, false, false, false]⟩] 0
      [⟨7, "#ff0000".toList, ["A".toList, "B".toList]⟩]
      ⟨7, "#ff0000".toList, ["A".toList, "B".toList]⟩ ("B".toList)
      (by decide) (by decide) (by decide)⟩

/-!  ## Claim C10: blended colors are well-formed and convex  -/

/-- C10 (confirmed): on well-formed inputs, a non-`None` blend result is
a `#`-prefixed six-lowercase-hex-digit string; each decoded channel
lies in `[0, 255]`, and in fact between the minimum and maximum of the
corresponding input channel values (any uniform bounds `m ≤ value ≤ M`
on the contributing channel values bound the output channel); and
every emitted CellAggregate carries such a well-formed colour. -/
theorem C10_wellformed_output :
    (∀ (g : List TreeRow) (out : List Char),
      (∀ r ∈ g, rowWellFormedB r = true) →
      blend_colors_with_prominence g = some (some out) →
      (∃ t, out = '#' :: t ∧ t.length = 6 ∧ ∀ c ∈ t, lowerHexDigitB c = true) ∧
      ∃ R G B : Nat, hex_to_rgb out = some (R, G, B) ∧
        R ≤ 255 ∧ G ≤ 255 ∧ B ≤ 255 ∧
        (∀ m M : Nat, (∀ r ∈ g, contributing r = true →
          m ≤ (rowRGB r).1 ∧ (rowRGB r).1 ≤ M) → m ≤ R ∧ R ≤ M) ∧
        (∀ m M : Nat, (∀ r ∈ g, contributing r = true →
          m ≤ (rowRGB r).2.1 ∧ (rowRGB r).2.1 ≤ M) → m ≤ G ∧ G ≤ M) ∧
        (∀ m M : Nat, (∀ r ∈ g, contributing r = true →
          m ≤ (rowRGB r).2.2 ∧ (rowRGB r).2.2 ≤ M) → m ≤ B ∧ B ≤ M)) ∧
    (∀ (rs : List TreeRow) (m : Nat) (aggs : List CellAgg) (agg : CellAgg),
      (∀ r ∈ rs, rowWellFormedB r = true) →
      aggregateMonth rs m = some aggs → agg ∈ aggs →
      ∃ t, agg.colour_hex = '#' :: t ∧ t.length = 6 ∧
        ∀ c ∈ t, lowerHexDigitB c = true) := by
  refine ⟨blend_wf_output, ?_⟩
  intro rs m aggs agg hwf h1 h2
  have hokfl : ∀ r ∈ rs.filter (fun r => flowersInMonth r m), rowOkB r = true :=
    fun r hr => rowWellFormedB_ok r (hwf r (List.mem_filter.mp hr).1)
  obtain ⟨aggs2, hb1, hb2, hb3⟩ :=
    buildAggs_wf (rs.filter (fun r => flowersInMonth r m))
      (groupbyKeys (rs.filter (fun r => flowersInMonth r m))) hokfl
  have h1b : buildAggs (rs.filter (fun r => flowersInMonth r m))
      (groupbyKeys (rs.filter (fun r => flowersInMonth r m))) = some aggs := h1
  rw [h1b] at hb1
  injection hb1 with hb1
  subst hb1
  obtain ⟨_, hblend⟩ := hb3 agg h2
  exact (blend_wf_output _ _
    (fun r hr =>
      hwf r (List.mem_filter.mp (List.mem_filter.mp hr).1).1) hblend).1

/-- C10 witness: the red-high / blue-low blend returns `"#bf003f"`,
which is well-formed and whose channels decode within bounds. -/
theorem C10_witness :
    (∀ r ∈ ([⟨"A".toList, some ("#ff0000".toList), some ("high".toList), 0, []⟩,
       ⟨"B".toList, some ("#0000ff".toList), some ("low".toList), 0, []⟩] :
        List TreeRow), rowWellFormedB r = true) ∧
    blend_colors_with_prominence
      [⟨"A".toList, some ("#ff0000".toList), some ("high".toList), 0, []⟩,
       ⟨"B".toList, some ("#0000ff".toList), some ("low".toList), 0, []⟩]
      = some (some ("#bf003f".toList)) ∧
    ((∃ t, "#bf003f".toList = '#' :: t ∧ t.length = 6 ∧
        ∀ c ∈ t, lowerHexDigitB c = true) ∧
      ∃ R G B : Nat, hex_to_rgb ("#bf003f".toList) = some (R, G, B) ∧
        R ≤ 255 ∧ G ≤ 255 ∧ B ≤ 255 ∧
        (∀ m M : Nat,
          (∀ r ∈ ([⟨"A".toList, some ("#ff0000".toList), some ("high".toList), 0, []⟩,
            ⟨"B".toList, some ("#0000ff".toList), some ("low".toList), 0, []⟩] :
            List TreeRow), contributing r = true →
            m ≤ (rowRGB r).1 ∧ (rowRGB r).1 ≤ M) → m ≤ R ∧ R ≤ M) ∧
        (∀ m M : Nat,
          (∀ r ∈ ([⟨"A".toList, some ("#ff0000".toList), some ("high".toList), 0, []⟩,
            ⟨"B".toList, some ("#0000ff".toList), some ("low".toList), 0, []⟩] :
            List TreeRow), contributing r = true →
            m ≤ (rowRGB r).2.1 ∧ (rowRGB r).2.1 ≤ M) → m ≤ G ∧ G ≤ M) ∧
        (∀ m M : Nat,
          (∀ r ∈ ([⟨"A".toList, some ("#ff0000".toList), some ("high".toList), 0, []⟩,
            ⟨"B".toList, some ("#0000ff".toList), some ("low".toList), 0, []⟩] :
            List TreeRow), contributing r = true →
            m ≤ (rowRGB r).2.2 ∧ (rowRGB r).2.2 ≤ M) → m ≤ B ∧ B ≤ M)) :=
  ⟨by decide, by decide,
    C10_wellformed_output.1
      [⟨"A".toList, some ("#ff0000".toList), some ("high".toList), 0, []⟩,
       ⟨"B".toList, some ("#0000ff".toList), some ("low".toList), 0, []⟩]
      ("#bf003f".toList) (by decide) (by decide)⟩

/-!  ## Claim C8: the cell boundary polygon  -/

/-- C8 (confirmed): `h3_cell_to_polygon` takes the hex-grid library's
native boundary traversal — modelled as an arbitrary non-empty vertex
list of `(latitude, longitude)` pairs, since `h3.cell_to_boundary` is
an external collaborator — re-orders every vertex to
`(x, y) = (longitude, latitude)` preserving vertex order, and forms
the closed polygon ring (last vertex equals first, per the modelled
shapely `Polygon` closure); distinct vertices stay distinct, so a
simple native traversal stays simple. -/
theorem C8_cell_polygon {α : Type} [DecidableEq α]
    (boundary : List (α × α)) (h : boundary ≠ []) :
    (∀ i, i < boundary.length →
      (h3_cell_to_polygon boundary)[i]? =
        (boundary[i]?).map (fun v => (v.2, v.1))) ∧
    (h3_cell_to_polygon boundary).head? =
      (boundary.head?).map (fun v => (v.2, v.1)) ∧
    (h3_cell_to_polygon boundary).getLast? =
      (h3_cell_to_polygon boundary).head? ∧
    (boundary.Nodup → (h3_cell_to_polygon boundary).dropLast.Nodup) := by
  have hinj : Function.Injective (fun v : α × α => (v.2, v.1)) := by
    intro x y hxy
    cases x
    cases y
    simp only [Prod.mk.injEq] at hxy
    simp [hxy.1, hxy.2]
  rcases boundary with _ | ⟨v0, vs⟩
  · exact absurd rfl h
  have hring : h3_cell_to_polygon (v0 :: vs) =
      if ((v0.2, v0.1) :: vs.map (fun v => (v.2, v.1))).getLast? = some (v0.2, v0.1)
      then (v0.2, v0.1) :: vs.map (fun v => (v.2, v.1))
      else ((v0.2, v0.1) :: vs.map (fun v => (v.2, v.1))) ++ [(v0.2, v0.1)] := by
    rfl
  have hcons : (v0.2, v0.1) :: vs.map (fun v => (v.2, v.1)) =
      (v0 :: vs).map (fun v => (v.2, v.1)) := rfl
  by_cases hcl :
      ((v0.2, v0.1) :: vs.map (fun v => (v.2, v.1))).getLast? = some (v0.2, v0.1)
  · rw [hring, if_pos hcl]
    refine ⟨?_, ?_, ?_, ?_⟩
    · intro i hi
      rw [hcons, List.getElem?_map]
    · rfl
    · rw [hcl]
      rfl
    · intro hnd
      have hm := List.Nodup.map hinj hnd
      rw [← hcons] at hm
      exact List.Nodup.sublist (List.dropLast_sublist _) hm
  · rw [hring, if_neg hcl]
    refine ⟨?_, ?_, ?_, ?_⟩
    · intro i hi
      rw [List.getElem?_append, if_pos (by rw [hcons, List.length_map]; exact hi),
        hcons, List.getElem?_map]
    · rfl
    · rw [List.getLast?_concat]
      rfl
    · intro hnd
      rw [List.dropLast_concat]
      have hm := List.Nodup.map hinj hnd
      rw [← hcons] at hm
      exact hm

/-- C8 witness: a concrete three-vertex boundary. -/
theorem C8_witness :
    (([((1 : Int), (2 : Int)), (3, 4), (5, 6)] : List (Int × Int)) ≠ []) ∧
    ((∀ i, i < ([((1 : Int), (2 : Int)), (3, 4), (5, 6)] :
        List (Int × Int)).length →
      (h3_cell_to_polygon
        ([((1 : Int), (2 : Int)), (3, 4), (5, 6)] : List (Int × Int)))[i]? =
        ((([((1 : Int), (2 : Int)), (3, 4), (5, 6)] :
          List (Int × Int)))[i]?).map (fun v => (v.2, v.1))) ∧
    (h3_cell_to_polygon
      ([((1 : Int), (2 : Int)), (3, 4), (5, 6)] : List (Int × Int))).head? =
      (([((1 : Int), (2 : Int)), (3, 4), (5, 6)] :
        List (Int × Int)).head?).map (fun v => (v.2, v.1)) ∧
    (h3_cell_to_polygon
      ([((1 : Int), (2 : Int)), (3, 4), (5, 6)] : List (Int × Int))).getLast? =
      (h3_cell_to_polygon
        ([((1 : Int), (2 : Int)), (3, 4), (5, 6)] : List (Int × Int))).head? ∧
    (([((1 : Int), (2 : Int)), (3, 4), (5, 6)] : List (Int × Int)).Nodup →
      (h3_cell_to_polygon
        ([((1 : Int), (2 : Int)), (3, 4), (5, 6)] :
          List (Int × Int))).dropLast.Nodup)) :=
  ⟨by decide,
    C8_cell_polygon ([((1 : Int), (2 : Int)), (3, 4), (5, 6)] : List (Int × Int))
      (by decide)⟩

end TreeCensus
